import Mathlib

/-!
Verification of the SMC Layer Protocol engine (`smc_layer_masterpiece.py`).

Shallow embedding conventions:
* Python floats are idealized as exact rationals (`ℚ`); the float literals
  occurring in the source (0.55, 0.35, 0.6, ...) are modeled as the exact
  rationals they denote, which agrees with the float computation at every
  integer-threshold decision reachable here.
* The float NaN sentinel returned by `band_from_zone` for an empty zone is
  modeled as `none : Option ℚ`; comparisons against it are `false`, exactly
  as NaN comparisons are in Python (`qlt`).
* `statistics.pstdev` takes a square root, so the Regime stage's numeric
  outputs live in `ℝ`; nothing downstream reads them except the boolean
  compression mask, which is carried as data.
* Python `int(...)` on a float is truncation toward zero (`pyTrunc`);
  Python list indexing with negative wrap-around is `pyGet` (out-of-range
  reads, which raise IndexError in Python, return `default` and are kept
  in range by the theorems).
* `SMCLayerEngine.analyze` raising `ValueError` is modeled as
  `Except String`; the source's ValueError message is kept verbatim.
-/

namespace SMC

/-- Python `int(x)` on an exact rational: truncation toward zero. -/
def pyTrunc (q : ℚ) : Int := q.num.tdiv q.den

/-- `int(n * (num/den))` for a nonnegative percentage, as used for the zone
boundaries `int(n * 0.55)` etc. -/
def pct (n num den : Nat) : Nat := (pyTrunc ((n : ℚ) * ((num : ℚ) / (den : ℚ)))).toNat

/-- Python list indexing `xs[i]`, including negative-index wrap-around. -/
def pyGet {α} [Inhabited α] (xs : List α) (i : Int) : α :=
  let j : Int := if i < 0 then i + xs.length else i
  xs.getD j.toNat default

/-- Float `<` where `none` models NaN: every comparison with NaN is false. -/
def qlt : Option ℚ → Option ℚ → Bool
  | some a, some b => decide (a < b)
  | _, _ => false

/-- One OHLCV bar (`Candle`). -/
structure Candle where
  ts : Int
  o : ℚ
  h : ℚ
  l : ℚ
  c : ℚ
  v : ℚ
deriving DecidableEq, Inhabited

/-- Run parameters with the source's defaults (`ctx.params.get(key, default)`). -/
structure Params where
  swing_left : Nat := 3
  swing_right : Nat := 3
  vap_bins : Nat := 60
  hvn_topk : Nat := 6
  vol_window : Nat := 20
  atr_window : Nat := 14
  range_window : Nat := 14
  vol_sma_window : Nat := 14
deriving DecidableEq, Inhabited

/-- `LayerBand`; `price_low`/`price_high` are `none` exactly when the source
writes the float NaN sentinel for an empty zone. -/
structure LayerBand where
  layer : Nat
  price_low : Option ℚ
  price_high : Option ℚ
  entry_start_ts : Option Int
  entry_end_ts : Option Int
  cost_basis : Option ℚ
  state : String
  confidence : ℚ
  evidence : List String
deriving DecidableEq, Inhabited

/-- `sma(values, window)`: mean over the trailing window once it fills.
The source raises ValueError for `window <= 0`; with `window : Nat` that
leaves `window = 0`, for which the theorems assume a positive window. -/
def sma (values : List ℚ) (window : Nat) : List (Option ℚ) :=
  (List.range values.length).map fun i =>
    if window ≤ i + 1 then
      some ((((values.drop (i + 1 - window)).take window).sum) / (window : ℚ))
    else none

/-- Typical price `(h+l+c)/3`. -/
def typical (cd : Candle) : ℚ := (cd.h + cd.l + cd.c) / 3

/-- `atr`: true range per bar (the first bar's previous close is its own
close), smoothed by `sma`. -/
def atr (candles : List Candle) (window : Nat) : List (Option ℚ) :=
  let tr := (List.range candles.length).map fun i =>
    let cd := candles.getD i default
    let prev_c := if i = 0 then cd.c else (candles.getD (i - 1) default).c
    max (cd.h - cd.l) (max |cd.h - prev_c| |cd.l - prev_c|)
  sma tr window

/-- Population variance, the exact part of `statistics.pstdev`. -/
def pvariance (xs : List ℚ) : ℚ :=
  let mu := xs.sum / (xs.length : ℚ)
  ((xs.map fun x => (x - mu) ^ 2).sum) / (xs.length : ℚ)

/-- `statistics.pstdev`: square root of the population variance (real-valued;
the source raises on an empty list, unreachable for positive windows). -/
noncomputable def pstdev (xs : List ℚ) : ℝ := Real.sqrt (pvariance xs)

/-- `rolling_std(values, window)`: population standard deviation over the
trailing window once it fills. -/
noncomputable def rolling_std (values : List ℚ) (window : Nat) : List (Option ℝ) :=
  (List.range values.length).map fun i =>
    if window ≤ i + 1 then some (pstdev ((values.drop (i + 1 - window)).take window))
    else none

/-- `percentile(values, p)`: linear interpolation between the floor and ceil
ranks of `(n-1)*p` of the ascending sort. The empty case (NaN in the source)
is guarded at both call sites. -/
noncomputable def percentile (values : List ℝ) (p : ℚ) : ℝ :=
  let xs := values.mergeSort fun a b => decide (a ≤ b)
  let k : ℚ := (((values.length : Int) - 1 : Int) : ℚ) * p
  if k.floor = k.ceil then xs.getD (pyTrunc k).toNat 0
  else
    let f := (xs.getD k.floor.toNat 0)
    let c := (xs.getD k.ceil.toNat 0)
    f + (c - f) * ((k : ℝ) - ((k.floor : ℚ) : ℝ))

/-- `clamp(x, lo, hi) = max(lo, min(hi, x))`. -/
def clamp (x lo hi : ℚ) : ℚ := max lo (min hi x)

/-- `find_swings`: for `i` in `range(left, n - right)`, `i` is a swing high
when `candles[i].h` is a maximum of the closed window `[i-left, i+right]`
(symmetric minimum rule for swing lows). Returns `(highs, lows)`;
the source's append loop over ascending `i` is a filter of the range. -/
def find_swings (candles : List Candle) (left right : Nat) : List Nat × List Nat :=
  let n := candles.length
  let idxs := List.range' left (n - right - left)
  (idxs.filter fun i =>
      (List.range' (i - left) (left + right + 1)).all fun j =>
        decide ((candles.getD j default).h ≤ (candles.getD i default).h),
   idxs.filter fun i =>
      (List.range' (i - left) (left + right + 1)).all fun j =>
        decide ((candles.getD i default).l ≤ (candles.getD j default).l))

/-- `anchored_vwap`: cumulative volume-weighted typical price from the anchor
on; `none` before the anchor and where cumulative volume is not positive. -/
def anchored_vwap (candles : List Candle) (anchor_idx : Nat) : List (Option ℚ) :=
  (List.range candles.length).map fun i =>
    if i < anchor_idx then none
    else
      let seg := (candles.drop anchor_idx).take (i + 1 - anchor_idx)
      let cum_v := (seg.map (·.v)).sum
      if 0 < cum_v then some (((seg.map fun cd => typical cd * cd.v).sum) / cum_v)
      else none

/-- `volume_nodes_proxy`: bucket each candle's full volume into the
equal-width bin of its typical price (index truncated, then clamped to
`[0, bins-1]`); degenerate range yields a single bucket. -/
def volume_nodes_proxy (candles : List Candle) (bins : Nat) : List (ℚ × ℚ × ℚ) :=
  if candles.isEmpty then []
  else
    let prices := candles.map typical
    let lo := prices.min?.getD 0
    let hi := prices.max?.getD 0
    if hi ≤ lo then [(lo, hi, (candles.map (·.v)).sum)]
    else
      let bin_size := (hi - lo) / (bins : ℚ)
      let vols := candles.foldl
        (fun vols cd =>
          let idx := (max 0 (min ((bins : Int) - 1) (pyTrunc ((typical cd - lo) / bin_size)))).toNat
          vols.set idx (vols.getD idx 0 + cd.v))
        (List.replicate bins (0 : ℚ))
      vols.enum.map fun p =>
        (lo + (p.1 : ℚ) * bin_size, lo + ((p.1 : ℚ) + 1) * bin_size, p.2)

/-- `top_hvn`: buckets sorted by volume descending (stable, as Python's
`sorted(..., reverse=True)`), first `k`. -/
def top_hvn (nodes : List (ℚ × ℚ × ℚ)) (k : Nat) : List (ℚ × ℚ × ℚ) :=
  (nodes.mergeSort fun a b => decide (b.2.2 ≤ a.2.2)).take k

/-- Output of `StructureAgent.run` as stored in `ctx.traces["structure"]`
(the trace dictionary is modeled as a typed record; `_confidence` and
`_evidence` become fields). -/
structure StructureOut where
  highs : List Nat
  lows : List Nat
  base_end_idx : Nat
  base_start_idx : Nat
  impulse_start_idx : Nat
  impulse_end_idx : Int
  confidence : ℚ
  evidence : List String
deriving DecidableEq, Inhabited

/-- The body of the base-end loop for one swing low `li`: the earliest swing
high after `li` (first of `hi_candidates`), then the first later close
strictly above its level. -/
def structureScanLow (candles : List Candle) (highs : List Nat) (li : Nat) : Option Nat :=
  match highs.find? fun hi => decide (li < hi) with
  | none => none
  | some hi0 =>
    let level := (candles.getD hi0 default).h
    (List.range' (hi0 + 1) (candles.length - (hi0 + 1))).find? fun j =>
      decide (level < (candles.getD j default).c)

/-- The `break` pattern of the source's outer loop: once the accumulator is
set, later swing lows are not examined. -/
def breakStep {β : Type} (f : Nat → Option β) (acc : Option β) (x : Nat) : Option β :=
  match acc with
  | some _ => acc
  | none => f x

/-- The base-end search of `StructureAgent.run`: the source's early-exit double
loop over swing lows, rendered as a fold whose `Option` accumulator models
`break` (guarded by `if swing_lows and swing_highs`). -/
def structureBaseEnd? (candles : List Candle) (highs lows : List Nat) : Option Nat :=
  if lows.isEmpty || highs.isEmpty then none
  else lows.foldl (breakStep (structureScanLow candles highs)) none

/-- `StructureAgent.run` (confidence fixed at 0.65); the fallback is
`max(0, int(n * 0.35))`. -/
def structureRun (candles : List Candle) (params : Params) : StructureOut :=
  let swings := find_swings candles params.swing_left params.swing_right
  let highs := swings.1
  let lows := swings.2
  let base_end := (structureBaseEnd? candles highs lows).getD
    (max 0 (pyTrunc ((candles.length : ℚ) * (35 / 100)))).toNat
  let nh := highs.length
  let nl := lows.length
  { highs := highs, lows := lows,
    base_end_idx := base_end, base_start_idx := 0,
    impulse_start_idx := base_end, impulse_end_idx := (candles.length : Int) - 1,
    confidence := 65 / 100,
    evidence := [s!"swings highs={nh}, lows={nl}", s!"base_end_idx={base_end}"] }

/-- Output of `VolumeAgent.run`. -/
structure VolumeOut where
  vap_nodes : List (ℚ × ℚ × ℚ)
  hvn : List (ℚ × ℚ × ℚ)
  confidence : ℚ
  evidence : List String
deriving DecidableEq, Inhabited

/-- `VolumeAgent.run` (confidence fixed at 0.70; the evidence strings carry
rounded floats in the source and are abbreviated here). -/
def volumeRun (candles : List Candle) (params : Params) : VolumeOut :=
  let nodes := volume_nodes_proxy candles params.vap_bins
  let hvn := top_hvn nodes params.hvn_topk
  let nb := nodes.length
  { vap_nodes := nodes, hvn := hvn, confidence := 7 / 10,
    evidence := [s!"vap bins={nb}", "hvn_top"] }

/-- Output of `CostBasisAgent.run`; `avwaps` keys the AVWAP series by anchor. -/
structure CostBasisOut where
  anchors : List Nat
  avwaps : List (Nat × List (Option ℚ))
  confidence : ℚ
  evidence : List String
deriving DecidableEq, Inhabited

/-- `CostBasisAgent.run`: anchors at the earliest, middle and latest swing low
(`sorted(set(...))`), or `[0, n // 2]` when there are no swing lows; reuses the
Structure trace's swings when present, else recomputes with `left=right=3`. -/
def costBasisRun (candles : List Candle) (swings? : Option (List Nat × List Nat)) :
    CostBasisOut :=
  let swings := swings?.getD (find_swings candles 3 3)
  let swing_lows := swings.2
  let anchors :=
    if swing_lows.isEmpty then [0, candles.length / 2]
    else
      let a := [swing_lows.getD 0 0, swing_lows.getD (swing_lows.length / 2) 0,
                swing_lows.getLast?.getD 0]
      a.eraseDups.mergeSort fun x y => decide (x ≤ y)
  { anchors := anchors,
    avwaps := anchors.map fun a => (a, anchored_vwap candles a),
    confidence := 66 / 100,
    evidence := ["anchors", "avwap=typical_price*volume"] }

/-- Output of `RegimeAgent.run`; the thresholds are real-valued because
`pstdev` takes a square root. -/
structure RegimeOut where
  compression_mask : List Bool
  std_p30 : ℝ
  atr_p30 : ℝ
  confidence : ℚ
  evidence : List String

/-- `RegimeAgent.run`: a bar is compressed when both its rolling standard
deviation and its ATR are at or below the respective 30th percentile of the
non-null values (thresholds default to 0.0 on empty value lists). -/
noncomputable def regimeRun (candles : List Candle) (params : Params) : RegimeOut :=
  let closes := candles.map (·.c)
  let rstd := rolling_std closes params.vol_window
  let atrv := atr candles params.atr_window
  let std_vals := rstd.filterMap id
  let atr_vals := (atrv.filterMap id).map fun q => (q : ℝ)
  let std_p30 := if std_vals.isEmpty then 0 else percentile std_vals (30 / 100)
  let atr_p30 := if atr_vals.isEmpty then 0 else percentile atr_vals (30 / 100)
  let compression := (List.range closes.length).map fun i =>
    match rstd.getD i none, atrv.getD i none with
    | some r, some a => decide (r ≤ std_p30) && decide ((a : ℝ) ≤ atr_p30)
    | _, _ => false
  { compression_mask := compression, std_p30 := std_p30, atr_p30 := atr_p30,
    confidence := 6 / 10, evidence := ["std_p30", "atr_p30"] }

/-- Output of `AccumDistAgent.run`. -/
structure AccumDistOut where
  distribution_flags : List Bool
  absorption_flags : List Bool
  confidence : ℚ
  evidence : List String
deriving DecidableEq, Inhabited

/-- `AccumDistAgent.run`: distribution = close up on above-average volume and
below-average range; absorption = the symmetric rule on a close decline. The
source's flag-setting loop is a map over indices (flags stay false where
either moving average is null or `i = 0`). -/
def accumDistRun (candles : List Candle) (params : Params) : AccumDistOut :=
  let ranges := candles.map fun cd => cd.h - cd.l
  let vols := candles.map (·.v)
  let r_sma := sma ranges params.range_window
  let v_sma := sma vols params.vol_sma_window
  let n := candles.length
  let dist_flags := (List.range n).map fun i =>
    match r_sma.getD i none, v_sma.getD i none with
    | some r, some v =>
      decide (0 < i) && decide ((candles.getD (i - 1) default).c < (candles.getD i default).c)
        && decide (v < vols.getD i 0) && decide (ranges.getD i 0 < r)
    | _, _ => false
  let abs_flags := (List.range n).map fun i =>
    match r_sma.getD i none, v_sma.getD i none with
    | some r, some v =>
      decide (0 < i) && decide ((candles.getD i default).c < (candles.getD (i - 1) default).c)
        && decide (v < vols.getD i 0) && decide (ranges.getD i 0 < r)
    | _, _ => false
  { distribution_flags := dist_flags, absorption_flags := abs_flags,
    confidence := 55 / 100,
    evidence := ["dist: up close + high vol + narrow range",
                 "abs: down close + high vol + narrow range"] }

/-- Output of `VerifierAgent.run`. -/
structure VerifierOut where
  checks_ok : Nat
  checks_need : Nat
  confidence : ℚ
  evidence : List String
deriving DecidableEq, Inhabited

/-- `VerifierAgent.run`: counts the three consistency checks; in the typed
trace record `base_end_idx` is always present, so that check always passes. -/
def verifierRun (vol : VolumeOut) (cb : CostBasisOut) : VerifierOut :=
  let ok := 1 + (if vol.hvn.isEmpty then 0 else 1) + (if cb.anchors.isEmpty then 0 else 1)
  { checks_ok := ok, checks_need := 3, confidence := (ok : ℚ) / 3,
    evidence := ["structure: base_end_idx present"]
      ++ (if vol.hvn.isEmpty then [] else ["volume: hvn present"])
      ++ (if cb.anchors.isEmpty then [] else ["cost_basis: anchors present"]) }

/-- The per-run trace record (`ctx.traces`) after the six stages have run;
`verifier` is optional because `resolve_layers` reads it through
`.get("verifier", {}).get("_confidence", 0.6)`. -/
structure Traces where
  structureT : StructureOut
  volume : VolumeOut
  cost_basis : CostBasisOut
  regime : RegimeOut
  accum_dist : AccumDistOut
  verifier : Option VerifierOut

/-- `_segment_by_indices`: the candles of the inclusive index range, clamped
to `[0, n-1]` (empty when the clamped range is inverted). -/
def segment_by_indices (candles : List Candle) (i0 i1 : Nat) : List Candle :=
  let i1c := min (candles.length - 1) i1
  if i1c < i0 then [] else (candles.drop i0).take (i1c + 1 - i0)

/-- `_weighted_centroid_price`: volume-weighted typical price, `none` on an
empty segment or when total volume is not positive (the division is guarded). -/
def weighted_centroid_price (candles : List Candle) : Option ℚ :=
  if candles.isEmpty then none
  else if 0 < (candles.map (·.v)).sum then
    some ((candles.map fun cd => typical cd * cd.v).sum / (candles.map (·.v)).sum)
  else none

/-- The loop body of `_find_longest_true_window`; the state is
`(best, cur_s, cur_len)` with `best = (best_s, best_e, best_len)`. -/
def fltwStep (mask : List Bool) (st : (Option Nat × Option Nat × Nat) × Option Nat × Nat)
    (i : Nat) : (Option Nat × Option Nat × Nat) × Option Nat × Nat :=
  let best := st.1
  let curS := st.2.1
  let curLen := st.2.2
  if mask.getD i false then
    match curS with
    | none => (best, some i, 1)
    | some s => (best, some s, curLen + 1)
  else
    match curS with
    | some s => (if best.2.2 < curLen then (some s, some (i - 1), curLen) else best, none, 0)
    | none => (best, none, 0)

/-- `_find_longest_true_window(mask, start_idx, end_idx)`: scans
`range(start_idx, end_idx + 1)` left to right, replacing the best run only
when strictly longer, and closes a run still open at the end. -/
def find_longest_true_window (mask : List Bool) (start_idx end_idx : Nat) :
    Option Nat × Option Nat × Nat :=
  let st := (List.range' start_idx (end_idx + 1 - start_idx)).foldl (fltwStep mask)
    ((none, none, 0), none, 0)
  match st.2.1 with
  | some s => if st.1.2.2 < st.2.2 then (some s, some end_idx, st.2.2) else st.1
  | none => st.1

/-- `band_from_zone`: min low / max high over the zone's candles, widened
symmetrically by `widen * span` when `widen > 0`, plus the volume-weighted
centroid; `(NaN, NaN, None)` (here `none`) on an empty zone. The centroid
evidence string follows Python truthiness: a 0.0 centroid also prints
`centroid=None`. -/
def band_from_zone (candles : List Candle) (z : Nat × Nat) (widen : ℚ) :
    Option ℚ × Option ℚ × Option ℚ × List String :=
  let seg := segment_by_indices candles z.1 z.2
  if seg.isEmpty then (none, none, none, ["empty zone"])
  else
    let lo := ((seg.map (·.l)).min?).getD 0
    let hi := ((seg.map (·.h)).max?).getD 0
    let span := hi - lo
    let lo1 := if 0 < widen then lo - span * widen else lo
    let hi1 := if 0 < widen then hi + span * widen else hi
    let cb := weighted_centroid_price seg
    let z0 := z.1
    let z1 := z.2
    (some lo1, some hi1, cb,
     [s!"zone={z0}..{z1}",
      match cb with
      | some q => if q = 0 then "centroid=None" else s!"centroid={q}"
      | none => "centroid=None"])

/-- `entry_window(z)`: the longest compression run inside the zone; when none
exists, the fallback window `z[0] + int((z[1]-z[0]) * 0.6) .. z[1]` with
confidence 0.35, else confidence `clamp(len / max(10, zone_len), 0.35, 0.85)`.
When the run exists its end is always `some`, so `getD 0` is inert. -/
def entry_window (candles : List Candle) (compression : List Bool) (z : Nat × Nat) :
    Option Int × Option Int × ℚ × List String :=
  let r := find_longest_true_window compression z.1 z.2
  match r.1 with
  | none =>
    let d : ℚ := (((z.2 : Int) - (z.1 : Int) : Int) : ℚ)
    let ss : Int := (z.1 : Int) + pyTrunc (d * (6 / 10))
    let ee : Int := (z.2 : Int)
    (some (pyGet candles ss).ts, some (pyGet candles ee).ts, 35 / 100,
     [s!"fallback window idx={ss}..{ee}"])
  | some s =>
    let e := r.2.1.getD 0
    let ln := r.2.2
    let conf := clamp ((ln : ℚ) / ((max 10 (z.2 + 1 - z.1) : Nat) : ℚ)) (35 / 100) (85 / 100)
    (some (pyGet candles (s : Int)).ts, some (pyGet candles (e : Int)).ts, conf,
     [s!"compression window idx={s}..{e} len={ln}"])

/-- `state_for_zone`: distribution/absorption flag rates over the zone decide
the state; the dominant rate must exceed 0.10 and the other rate. -/
def state_for_zone (dist_flags abs_flags : List Bool) (z : Nat × Nat) :
    String × ℚ × List String :=
  let idxs := List.range' z.1 (z.2 + 1 - z.1)
  let d := (idxs.filter fun i => dist_flags.getD i false).length
  let a := (idxs.filter fun i => abs_flags.getD i false).length
  let total := max 1 (z.2 + 1 - z.1)
  let d_rate : ℚ := (d : ℚ) / (total : ℚ)
  let a_rate : ℚ := (a : ℚ) / (total : ℚ)
  let ev := [s!"dist_rate={d_rate}", s!"abs_rate={a_rate}"]
  if 1 / 10 < d_rate ∧ a_rate < d_rate then
    ("distributing", clamp (55 / 100 + d_rate) (55 / 100) (85 / 100), ev)
  else if 1 / 10 < a_rate ∧ d_rate < a_rate then
    ("accumulating", clamp (55 / 100 + a_rate) (55 / 100) (85 / 100), ev)
  else ("holding", 55 / 100, ev)

/-- `combine_conf`: the ensemble weighting, clamped to `[0, 1]`. -/
def combine_conf (a b c : ℚ) : ℚ :=
  clamp (45 / 100 * a + 35 / 100 * b + 20 / 100 * c) 0 1

/-- The HVN/band overlap test `not (nd[1] < price_low or nd[0] > price_high)`;
NaN (`none`) band edges make every comparison false, hence overlap true,
exactly as in float semantics. -/
def hvnOverlap (lb : LayerBand) (nd : ℚ × ℚ × ℚ) : Bool :=
  !(qlt (some nd.2.1) lb.price_low || qlt lb.price_high (some nd.1))

/-- The body of the HVN refinement loop of `resolve_layers`: the first
overlapping bucket of the volume-sorted list blends a non-null cost basis
70/30 toward its midpoint and appends an evidence note; a null cost basis is
left null (the blend is inside `if lb.cost_basis is not None`). -/
def hvnRefine (hvn_sorted : List (ℚ × ℚ × ℚ)) (lb : LayerBand) : LayerBand :=
  match hvn_sorted.filter (hvnOverlap lb) with
  | [] => lb
  | nd :: _ =>
    let hvn_centroid := (nd.1 + nd.2.1) / 2
    { lb with
      cost_basis :=
        match lb.cost_basis with
        | some cbv => some (cbv * (7 / 10) + hvn_centroid * (3 / 10))
        | none => none,
      evidence := lb.evidence ++ [s!"hvn_hint centroid={hvn_centroid}"] }

/-- One layer of `resolve_layers`: the source repeats this block verbatim for
the five zone/widen pairs. -/
def layerFor (candles : List Candle) (compression dist_flags abs_flags : List Bool)
    (vconf : ℚ) (num : Nat) (z : Nat × Nat) (widen : ℚ) : LayerBand :=
  let b := band_from_zone candles z widen
  let w := entry_window candles compression z
  let st := state_for_zone dist_flags abs_flags z
  { layer := num, price_low := b.1, price_high := b.2.1,
    entry_start_ts := w.1, entry_end_ts := w.2.1,
    cost_basis := b.2.2.1, state := st.1,
    confidence := combine_conf w.2.2.1 st.2.1 vconf,
    evidence := b.2.2.2 ++ w.2.2.2 ++ st.2.2 ++ [s!"verifier={vconf}"] }

/-- The five lifecycle zones of `resolve_layers` in layer order, from
`base_end_idx` and the series length. -/
def zoneFor (candles : List Candle) (tr : Traces) : Nat → Nat × Nat
  | 0 => (0, tr.structureT.base_end_idx)
  | 1 => (tr.structureT.base_end_idx, pct candles.length 55 100)
  | 2 => (pct candles.length 45 100, pct candles.length 75 100)
  | 3 => (pct candles.length 70 100, candles.length - 1)
  | _ => (pct candles.length 85 100, candles.length - 1)

/-- `resolve_layers`: builds the five `LayerBand`s over the zones
`base/early/mid/late/peak` with widen factors 0.05..0.01, then (when the
volume-sorted HVN list is non-empty) applies the HVN refinement to each. -/
def resolve_layers (candles : List Candle) (tr : Traces) : List LayerBand :=
  let hvn_sorted := tr.volume.hvn.mergeSort fun a b => decide (b.2.2 ≤ a.2.2)
  let vconf := (tr.verifier.map (·.confidence)).getD (6 / 10)
  let comp := tr.regime.compression_mask
  let dist := tr.accum_dist.distribution_flags
  let absf := tr.accum_dist.absorption_flags
  let layers :=
    [layerFor candles comp dist absf vconf 1 (zoneFor candles tr 0) (5 / 100),
     layerFor candles comp dist absf vconf 2 (zoneFor candles tr 1) (4 / 100),
     layerFor candles comp dist absf vconf 3 (zoneFor candles tr 2) (3 / 100),
     layerFor candles comp dist absf vconf 4 (zoneFor candles tr 3) (2 / 100),
     layerFor candles comp dist absf vconf 5 (zoneFor candles tr 4) (1 / 100)]
  if hvn_sorted.isEmpty then layers else layers.map (hvnRefine hvn_sorted)

/-- The five unrefined layers of `resolve_layers`, in order. -/
def baseLayers (candles : List Candle) (tr : Traces) : List LayerBand :=
  [layerFor candles tr.regime.compression_mask tr.accum_dist.distribution_flags
     tr.accum_dist.absorption_flags ((tr.verifier.map (·.confidence)).getD (6 / 10))
     1 (zoneFor candles tr 0) (5 / 100),
   layerFor candles tr.regime.compression_mask tr.accum_dist.distribution_flags
     tr.accum_dist.absorption_flags ((tr.verifier.map (·.confidence)).getD (6 / 10))
     2 (zoneFor candles tr 1) (4 / 100),
   layerFor candles tr.regime.compression_mask tr.accum_dist.distribution_flags
     tr.accum_dist.absorption_flags ((tr.verifier.map (·.confidence)).getD (6 / 10))
     3 (zoneFor candles tr 2) (3 / 100),
   layerFor candles tr.regime.compression_mask tr.accum_dist.distribution_flags
     tr.accum_dist.absorption_flags ((tr.verifier.map (·.confidence)).getD (6 / 10))
     4 (zoneFor candles tr 3) (2 / 100),
   layerFor candles tr.regime.compression_mask tr.accum_dist.distribution_flags
     tr.accum_dist.absorption_flags ((tr.verifier.map (·.confidence)).getD (6 / 10))
     5 (zoneFor candles tr 4) (1 / 100)]

/-- The final `SMCLayerMap`; `meta = {"params": ctx.params}` becomes
`meta_params`. -/
structure SMCLayerMap where
  symbol : String
  timeframe : String
  start_ts : Int
  end_ts : Int
  layers : List LayerBand
  notes : List String
  meta_params : Params

/-- `SMCLayerEngine.analyze` with the built-in agents (no external adapter
registered, so `_run_agent` always takes the internal path): validates the
candle count, runs the six stages sequentially in their fixed order,
accumulates the typed trace record, resolves the layers and assembles the
report. The raised ValueError is an `Except.error` with the source's
message. -/
noncomputable def analyze (symbol timeframe : String) (candles : List Candle)
    (params : Params) : Except String SMCLayerMap :=
  if candles.isEmpty ∨ candles.length < 100 then
    .error ("Need at least ~100 candles for meaningful layer inference.")
  else
    let st := structureRun candles params
    let vol := volumeRun candles params
    let cb := costBasisRun candles (some (st.highs, st.lows))
    let reg := regimeRun candles params
    let ad := accumDistRun candles params
    let ver := verifierRun vol cb
    let tr : Traces := ⟨st, vol, cb, reg, ad, some ver⟩
    .ok { symbol := symbol, timeframe := timeframe,
          start_ts := (pyGet candles 0).ts, end_ts := (pyGet candles (-1)).ts,
          layers := resolve_layers candles tr,
          notes := ["This is a cost-basis proxy inference, not true holder cost basis.",
                    "Confidence is ensemble of regime window + acc/dist signals + verifier checks."],
          meta_params := params }

/-- A run of `true` values of `mask` spanning `[s, e]` inside the zone
`[z0, z1]` (the notion "contiguous run of compressed bars inside the zone"
of the entry-window search). -/
def TrueWin (mask : List Bool) (z0 z1 s e : Nat) : Prop :=
  z0 ≤ s ∧ s ≤ e ∧ e ≤ z1 ∧ ∀ i, s ≤ i → i ≤ e → mask.getD i false = true

/-- Loop invariant of `_find_longest_true_window` after the indices
`[z0, p)` have been processed: the open run is exact and left-maximal, the
best triple records the first longest completed run, and every window
completed so far is bounded by the best length (with ties after the best
start). -/
def FltwInv (mask : List Bool) (z0 z1 p : Nat)
    (st : (Option Nat × Option Nat × Nat) × Option Nat × Nat) : Prop :=
  (match st.2.1 with
   | none => st.2.2 = 0 ∧ (p = z0 ∨ mask.getD (p - 1) false = false)
   | some s => z0 ≤ s ∧ s < p ∧ st.2.2 = p - s ∧
       (∀ i, s ≤ i → i < p → mask.getD i false = true) ∧
       (s = z0 ∨ mask.getD (s - 1) false = false)) ∧
  (match st.1 with
   | (none, oe, bl) => oe = none ∧ bl = 0
   | (some bs, oe, bl) => ∃ be, oe = some be ∧ z0 ≤ bs ∧ bs ≤ be ∧ be + 1 < p ∧
       bl = be + 1 - bs ∧ (∀ i, bs ≤ i → i ≤ be → mask.getD i false = true) ∧
       mask.getD (be + 1) false = false ∧
       ∀ s, st.2.1 = some s → be < s) ∧
  (∀ s2 e2, TrueWin mask z0 z1 s2 e2 → e2 < p →
     (∀ s, st.2.1 = some s → e2 < s) → e2 + 1 - s2 ≤ st.1.2.2) ∧
  (∀ s2 e2, TrueWin mask z0 z1 s2 e2 → e2 < p →
     (∀ s, st.2.1 = some s → e2 < s) → e2 + 1 - s2 = st.1.2.2 →
     ∃ bs, st.1.1 = some bs ∧ bs ≤ s2)

/-- The Structure stage's base-end search as the specification words it:
iterate swing lows in order, take for each the earliest swing high after it,
scan forward for the first close strictly above that high's level, and return
the first breakout so found. -/
def specBaseEnd? (candles : List Candle) (highs lows : List Nat) : Option Nat :=
  lows.findSome? fun li =>
    (highs.find? fun hi => decide (li < hi)).bind fun hi0 =>
      (List.range' (hi0 + 1) (candles.length - (hi0 + 1))).find? fun j =>
        decide ((candles.getD hi0 default).h < (candles.getD j default).c)

/-- 100 flat candles (the spec's flat-market shape), for witnesses. -/
def flat100 : List Candle := (List.range 100).map fun i => ⟨((i : Nat) : Int), 100, 100, 100, 100, 10⟩

/-- 50 flat candles (the spec's insufficient-data scenario), for witnesses. -/
def flat50 : List Candle := (List.range 50).map fun i => ⟨((i : Nat) : Int), 100, 100, 100, 100, 10⟩

/-- Ten well-formed candles with strictly increasing timestamps. -/
def candlesCE2 : List Candle :=
  [⟨0, 1, 2, 0, 1, 1⟩, ⟨1, 1, 2, 0, 1, 1⟩, ⟨2, 1, 2, 0, 1, 1⟩, ⟨3, 1, 2, 0, 1, 1⟩,
   ⟨4, 1, 2, 0, 1, 1⟩, ⟨5, 1, 2, 0, 1, 1⟩, ⟨6, 1, 2, 0, 1, 1⟩, ⟨7, 1, 2, 0, 1, 1⟩,
   ⟨8, 1, 2, 0, 1, 1⟩, ⟨9, 1, 2, 0, 1, 1⟩]

/-- A trace record whose `base_end_idx = 9` exceeds `int(0.55 * 10) = 5`,
inverting the early zone. -/
def tracesCE2 : Traces :=
  { structureT := { highs := [], lows := [], base_end_idx := 9, base_start_idx := 0,
                    impulse_start_idx := 9, impulse_end_idx := 9,
                    confidence := 65 / 100, evidence := [] },
    volume := { vap_nodes := [], hvn := [], confidence := 7 / 10, evidence := [] },
    cost_basis := { anchors := [0], avwaps := [], confidence := 66 / 100, evidence := [] },
    regime := { compression_mask := List.replicate 10 false, std_p30 := 0, atr_p30 := 0,
                confidence := 6 / 10, evidence := [] },
    accum_dist := { distribution_flags := List.replicate 10 false,
                    absorption_flags := List.replicate 10 false,
                    confidence := 55 / 100, evidence := [] },
    verifier := none }

/-- `tracesCE2` with a base end inside the early-zone bound (all zones in
order), for the amended-claim witness. -/
def tracesW2 : Traces :=
  { tracesCE2 with
    structureT := { tracesCE2.structureT with base_end_idx := 3, impulse_start_idx := 3 } }

/-- Ten candles whose volume is zero everywhere: every zone has zero total
volume, so every weighted centroid is `None`. -/
def candlesCE6 : List Candle :=
  [⟨0, 1, 2, 1, 1, 0⟩, ⟨1, 1, 2, 1, 1, 0⟩, ⟨2, 1, 2, 1, 1, 0⟩, ⟨3, 1, 2, 1, 1, 0⟩,
   ⟨4, 1, 2, 1, 1, 0⟩, ⟨5, 1, 2, 1, 1, 0⟩, ⟨6, 1, 2, 1, 1, 0⟩, ⟨7, 1, 2, 1, 1, 0⟩,
   ⟨8, 1, 2, 1, 1, 0⟩, ⟨9, 1, 2, 1, 1, 0⟩]

/-- A trace record with a single HVN bucket `(0, 1000, 5)` wide enough to
overlap every price band of `candlesCE6`. -/
def tracesCE6 : Traces :=
  { tracesCE2 with
    structureT := { tracesCE2.structureT with base_end_idx := 2, impulse_start_idx := 2 },
    volume := { vap_nodes := [(0, 1000, 5)], hvn := [(0, 1000, 5)],
                confidence := 7 / 10, evidence := [] } }

/-- Strictly unimodal highs `[1, 3, 5/2, 2, 3/2, 1]` whose single global
maximum sits at index 1, within `left = 2` of the start. -/
def candlesCE7 : List Candle :=
  [⟨0, 1, 1, 1, 1, 1⟩, ⟨1, 3, 3, 3, 3, 1⟩, ⟨2, 5/2, 5/2, 5/2, 5/2, 1⟩,
   ⟨3, 2, 2, 2, 2, 1⟩, ⟨4, 3/2, 3/2, 3/2, 3/2, 1⟩, ⟨5, 1, 1, 1, 1, 1⟩]

/-- Strictly unimodal highs `[1, 2, 3, 5/2, 2, 1]` with the peak at index 2,
at least 2 from both ends, for the amended-claim witness. -/
def candlesW7 : List Candle :=
  [⟨0, 1, 1, 1, 1, 1⟩, ⟨1, 2, 2, 2, 2, 1⟩, ⟨2, 3, 3, 3, 3, 1⟩,
   ⟨3, 5/2, 5/2, 5/2, 5/2, 1⟩, ⟨4, 2, 2, 2, 2, 1⟩, ⟨5, 1, 1, 1, 1, 1⟩]

/-- A compression mask with two equal-length runs `[1,2]` and `[4,5]`. -/
def maskW4 : List Bool := [false, true, true, false, true, true, false]

/-- Seven candles with `ts = index`, carrying `maskW4`. -/
def candlesW4 : List Candle :=
  [⟨0, 1, 2, 0, 1, 1⟩, ⟨1, 1, 2, 0, 1, 1⟩, ⟨2, 1, 2, 0, 1, 1⟩, ⟨3, 1, 2, 0, 1, 1⟩,
   ⟨4, 1, 2, 0, 1, 1⟩, ⟨5, 1, 2, 0, 1, 1⟩, ⟨6, 1, 2, 0, 1, 1⟩]

/-- Four candles with distinct typical prices 1, 2, 3, 4 and volumes
2, 3, 5, 7. -/
def candlesW9 : List Candle :=
  [⟨0, 1, 1, 1, 1, 2⟩, ⟨1, 2, 2, 2, 2, 3⟩, ⟨2, 3, 3, 3, 3, 5⟩, ⟨3, 4, 4, 4, 4, 7⟩]

/-- Two candles with equal typical price, for the degenerate-histogram case. -/
def candlesW9d : List Candle := [⟨0, 2, 2, 2, 2, 3⟩, ⟨1, 2, 2, 2, 2, 4⟩]

/-- An HVN candidate list with two overlapping buckets, the higher-volume one
second, and a band from 1 to 3 with a non-null cost basis. -/
def hvnW6 : List (ℚ × ℚ × ℚ) := [(0, 2, 5), (2, 3, 9), (10, 11, 100)]

/-- A finished layer with band `[1, 3]` and cost basis 2. -/
def lbW6 : LayerBand :=
  { layer := 1, price_low := some 1, price_high := some 3,
    entry_start_ts := some 0, entry_end_ts := some 1, cost_basis := some 2,
    state := "holding", confidence := 1/2, evidence := ["e0"] }

lemma clamp_mem (x lo hi : ℚ) (h : lo ≤ hi) : lo ≤ clamp x lo hi ∧ clamp x lo hi ≤ hi := by
  unfold clamp
  exact ⟨le_max_left _ _, max_le h (min_le_left _ _)⟩

lemma combine_conf_mem (a b c : ℚ) : 0 ≤ combine_conf a b c ∧ combine_conf a b c ≤ 1 :=
  clamp_mem _ _ _ (by norm_num)

lemma foldl_min_le_init (l : List ℚ) : ∀ x : ℚ, l.foldl min x ≤ x := by
  induction l with
  | nil => intro x; simp
  | cons a t ih => intro x; exact le_trans (ih (min x a)) (min_le_left x a)

lemma foldl_min_le_mem (l : List ℚ) : ∀ x : ℚ, ∀ b ∈ l, l.foldl min x ≤ b := by
  induction l with
  | nil => simp
  | cons a t ih =>
    intro x b hb
    rcases List.mem_cons.mp hb with rfl | hb
    · exact le_trans (foldl_min_le_init t (min x b)) (min_le_right x b)
    · exact ih (min x a) b hb

lemma init_le_foldl_max (l : List ℚ) : ∀ x : ℚ, x ≤ l.foldl max x := by
  induction l with
  | nil => intro x; simp
  | cons a t ih => intro x; exact le_trans (le_max_left x a) (ih (max x a))

lemma mem_le_foldl_max (l : List ℚ) : ∀ x : ℚ, ∀ b ∈ l, b ≤ l.foldl max x := by
  induction l with
  | nil => simp
  | cons a t ih =>
    intro x b hb
    rcases List.mem_cons.mp hb with rfl | hb
    · exact le_trans (le_max_right x b) (init_le_foldl_max t (max x b))
    · exact ih (max x a) b hb

lemma min?_getD_le (l : List ℚ) (b : ℚ) (hb : b ∈ l) : l.min?.getD 0 ≤ b := by
  cases l with
  | nil => cases hb
  | cons a t =>
    have hdef : (a :: t).min? = some (t.foldl min a) := rfl
    rw [hdef]
    rcases List.mem_cons.mp hb with rfl | hb
    · exact foldl_min_le_init t b
    · exact foldl_min_le_mem t a b hb

lemma le_max?_getD (l : List ℚ) (b : ℚ) (hb : b ∈ l) : b ≤ l.max?.getD 0 := by
  cases l with
  | nil => cases hb
  | cons a t =>
    have hdef : (a :: t).max? = some (t.foldl max a) := rfl
    rw [hdef]
    rcases List.mem_cons.mp hb with rfl | hb
    · exact init_le_foldl_max t b
    · exact mem_le_foldl_max t a b hb

lemma sum_set_getD (L : List ℚ) (n : Nat) (v : ℚ) (hn : n < L.length) :
    (L.set n (L.getD n 0 + v)).sum = L.sum + v := by
  rw [List.sum_set, if_pos hn]
  have hgd : L.getD n 0 = L[n] := by
    rw [List.getD_eq_getElem?_getD, List.getElem?_eq_getElem hn]
    rfl
  have hsum : L.sum = (L.take n).sum + (L[n] + (L.drop (n + 1)).sum) := by
    rw [← List.sum_take_add_sum_drop L n]
    congr 1
    rw [← List.getElem_cons_drop L n hn, List.sum_cons]
  rw [hgd, hsum]
  ring

lemma foldl_set_sum (g : List ℚ → Candle → List ℚ) (f : Candle → Nat)
    (hg : ∀ vols cd, g vols cd = vols.set (f cd) (vols.getD (f cd) 0 + cd.v)) :
    ∀ (cds : List Candle) (L : List ℚ), (∀ cd ∈ cds, f cd < L.length) →
      (cds.foldl g L).sum = L.sum + (cds.map (·.v)).sum := by
  intro cds
  induction cds with
  | nil => intro L _; simp
  | cons cd tl ih =>
    intro L h
    rw [List.foldl_cons, hg, ih]
    · rw [sum_set_getD L (f cd) cd.v (h cd (by simp))]
      simp only [List.map_cons, List.sum_cons]
      ring
    · intro cd2 h2
      rw [List.length_set]
      exact h cd2 (by simp [h2])

lemma map_third_enum (L : List ℚ) (h : Nat × ℚ → ℚ × ℚ × ℚ)
    (hh : ∀ p, (h p).2.2 = p.2) : ((L.enum.map h).map fun t => t.2.2) = L := by
  rw [List.map_map]
  have hc : ((fun t : ℚ × ℚ × ℚ => t.2.2) ∘ h) = Prod.snd := funext fun p => hh p
  rw [hc, List.enum_map_snd]

lemma hvnRefine_fields (hs : List (ℚ × ℚ × ℚ)) (lb : LayerBand) :
    (hvnRefine hs lb).layer = lb.layer ∧
    (hvnRefine hs lb).price_low = lb.price_low ∧
    (hvnRefine hs lb).price_high = lb.price_high ∧
    (hvnRefine hs lb).entry_start_ts = lb.entry_start_ts ∧
    (hvnRefine hs lb).entry_end_ts = lb.entry_end_ts ∧
    (hvnRefine hs lb).confidence = lb.confidence ∧
    (hvnRefine hs lb).state = lb.state := by
  unfold hvnRefine
  cases hs.filter (hvnOverlap lb) with
  | nil => exact ⟨rfl, rfl, rfl, rfl, rfl, rfl, rfl⟩
  | cons nd tl => exact ⟨rfl, rfl, rfl, rfl, rfl, rfl, rfl⟩

lemma hvnRefine_cost_none (hs : List (ℚ × ℚ × ℚ)) (lb : LayerBand)
    (h : lb.cost_basis = none) : (hvnRefine hs lb).cost_basis = none := by
  unfold hvnRefine
  cases hs.filter (hvnOverlap lb) with
  | nil => exact h
  | cons nd tl => simp [h]

lemma getD_map_lt {α β : Type} [Inhabited β] (f : α → β) (L : List α) (k : Nat)
    (hk : k < L.length) : (L.map f).getD k default = f (L[k]) := by
  rw [List.getD_eq_getElem?_getD, List.getElem?_eq_getElem (by simpa using hk)]
  simp

/-- A non-empty zero-volume segment has no weighted centroid (the division is
guarded by a positivity check). -/
lemma centroid_none_of_zero (seg : List Candle) (hne : seg ≠ [])
    (hz : (seg.map (·.v)).sum = 0) : weighted_centroid_price seg = none := by
  unfold weighted_centroid_price
  rw [if_neg (by simpa [List.isEmpty_iff] using hne)]
  simp only [hz]
  norm_num

/-- A zone whose non-empty segment carries zero total volume yields a layer
with `cost_basis = None`, through both the unrefined and the HVN-refined
paths of `resolve_layers`. -/
lemma resolve_cost_none (candles : List Candle) (tr : Traces) (k : Nat)
    (hk : k < 5)
    (hne : segment_by_indices candles (zoneFor candles tr k).1
      (zoneFor candles tr k).2 ≠ [])
    (hz : ((segment_by_indices candles (zoneFor candles tr k).1
      (zoneFor candles tr k).2).map (·.v)).sum = 0) :
    ((resolve_layers candles tr).getD k default).cost_basis = none := by
  have hband : ∀ widen : ℚ,
      (band_from_zone candles (zoneFor candles tr k) widen).2.2.1 = none := by
    intro widen
    simp only [band_from_zone]
    rw [if_neg (by simpa [List.isEmpty_iff] using hne)]
    exact centroid_none_of_zero _ hne hz
  simp only [resolve_layers]
  split_ifs with hemp
  · interval_cases k <;>
      simpa [layerFor, List.getD_eq_getElem?_getD] using hband _
  · interval_cases k <;>
    · rw [getD_map_lt (hvnRefine _) _ _ (by simp)]
      apply hvnRefine_cost_none
      simpa [layerFor, List.getD_eq_getElem?_getD] using hband _

/-- C10: the volume-weighted centroid is guarded against division by zero: a
non-empty segment of total volume zero yields `None` (and a `Some` result
certifies a positive total volume), and through `band_from_zone` and the HVN
refinement the corresponding layer of `resolve_layers` carries
`cost_basis = None`. -/
theorem c10_zero_volume_centroid :
    (∀ seg : List Candle, seg ≠ [] → (seg.map (·.v)).sum = 0 →
      weighted_centroid_price seg = none) ∧
    (∀ (seg : List Candle) (q : ℚ), weighted_centroid_price seg = some q →
      0 < (seg.map (·.v)).sum) ∧
    (∀ (candles : List Candle) (tr : Traces) (k : Nat), k < 5 →
      segment_by_indices candles (zoneFor candles tr k).1 (zoneFor candles tr k).2 ≠ [] →
      ((segment_by_indices candles (zoneFor candles tr k).1 (zoneFor candles tr k).2).map
          (·.v)).sum = 0 →
      ((resolve_layers candles tr).getD k default).cost_basis = none) := by
  refine ⟨centroid_none_of_zero, ?_, resolve_cost_none⟩
  intro seg q hq
  unfold weighted_centroid_price at hq
  split_ifs at hq with h1 h2
  all_goals simp_all

/-- C10 witness: on ten zero-volume candles the base zone's segment is
non-empty with zero total volume and layer 1's cost basis is `None`. -/
theorem c10_witness :
    (segment_by_indices candlesCE6 (zoneFor candlesCE6 tracesCE6 0).1
        (zoneFor candlesCE6 tracesCE6 0).2 ≠ []) ∧
    ((segment_by_indices candlesCE6 (zoneFor candlesCE6 tracesCE6 0).1
        (zoneFor candlesCE6 tracesCE6 0).2).map (·.v)).sum = 0 ∧
    ((resolve_layers candlesCE6 tracesCE6).getD 0 default).cost_basis = none :=
  ⟨by decide, by simp [candlesCE6, tracesCE6, tracesCE2, zoneFor, segment_by_indices],
    c10_zero_volume_centroid.2.2 candlesCE6 tracesCE6 0 (by norm_num) (by decide)
      (by simp [candlesCE6, tracesCE6, tracesCE2, zoneFor, segment_by_indices])⟩

lemma idx_lt_bins (bins : Nat) (hb : 1 ≤ bins) (t : Int) :
    (max 0 (min ((bins : Int) - 1) t)).toNat < bins := by omega

/-- C9: every candle's full volume lands in exactly one bucket (the clamped
bucket of its typical price), so the bucket volumes of `volume_nodes_proxy`
sum to the total volume; and when all typical prices coincide the histogram
is the single degenerate bucket holding the total volume. -/
theorem c9_histogram_total_volume :
    (∀ (candles : List Candle) (bins : Nat), candles ≠ [] → 1 ≤ bins →
      (((volume_nodes_proxy candles bins).map fun t => t.2.2).sum
        = (candles.map (·.v)).sum)) ∧
    (∀ (candles : List Candle) (bins : Nat), candles ≠ [] →
      (candles.map typical).max? = (candles.map typical).min? →
      volume_nodes_proxy candles bins =
        [(((candles.map typical).min?).getD 0, ((candles.map typical).min?).getD 0,
          (candles.map (·.v)).sum)]) := by
  constructor
  · intro candles bins hne hb
    simp only [volume_nodes_proxy]
    rw [if_neg (by simpa [List.isEmpty_iff] using hne)]
    split_ifs with hdeg
    · simp
    · rw [map_third_enum _ _ (fun p => rfl)]
      rw [foldl_set_sum _
          (fun cd => (max 0 (min ((bins : Int) - 1)
            (pyTrunc ((typical cd - ((candles.map typical).min?).getD 0) /
              ((((candles.map typical).max?).getD 0 - ((candles.map typical).min?).getD 0) /
                (bins : ℚ)))))).toNat)
          (fun vols cd => rfl) candles (List.replicate bins 0)
          (fun cd _ => by
            rw [List.length_replicate]
            exact idx_lt_bins bins hb _)]
      simp
  · intro candles bins hne hdeg
    simp only [volume_nodes_proxy]
    rw [if_neg (by simpa [List.isEmpty_iff] using hne)]
    rw [if_pos (le_of_eq (by rw [hdeg])), hdeg]

/-- C9 witness: four candles with typical prices 1..4 and volumes 2,3,5,7 into
3 bins sum to 17, and a constant-typical pair degenerates to one bucket. -/
theorem c9_witness :
    (((volume_nodes_proxy candlesW9 3).map fun t => t.2.2).sum
      = (candlesW9.map (·.v)).sum) ∧
    volume_nodes_proxy candlesW9d 7 =
      [(((candlesW9d.map typical).min?).getD 0, ((candlesW9d.map typical).min?).getD 0,
        (candlesW9d.map (·.v)).sum)] :=
  ⟨c9_histogram_total_volume.1 candlesW9 3 (by decide) (by decide),
   c9_histogram_total_volume.2 candlesW9d 7 (by decide)
     (by simp [candlesW9d, typical])⟩

lemma find_swings_highs_mem (candles : List Candle) (left right i : Nat) :
    i ∈ (find_swings candles left right).1 ↔
      left ≤ i ∧ i + right < candles.length ∧
        ∀ j, i - left ≤ j → j ≤ i + right →
          (candles.getD j default).h ≤ (candles.getD i default).h := by
  simp only [find_swings, List.mem_filter, List.mem_range'_1, List.all_eq_true,
    decide_eq_true_eq]
  constructor
  · rintro ⟨⟨h1, h2⟩, h3⟩
    exact ⟨h1, by omega, fun j hj1 hj2 => h3 j ⟨by omega, by omega⟩⟩
  · rintro ⟨h1, h2, h3⟩
    exact ⟨⟨h1, by omega⟩, fun j hj => h3 j (by omega) (by omega)⟩

lemma find_swings_lows_mem (candles : List Candle) (left right i : Nat) :
    i ∈ (find_swings candles left right).2 ↔
      left ≤ i ∧ i + right < candles.length ∧
        ∀ j, i - left ≤ j → j ≤ i + right →
          (candles.getD i default).l ≤ (candles.getD j default).l := by
  simp only [find_swings, List.mem_filter, List.mem_range'_1, List.all_eq_true,
    decide_eq_true_eq]
  constructor
  · rintro ⟨⟨h1, h2⟩, h3⟩
    exact ⟨h1, by omega, fun j hj1 hj2 => h3 j ⟨by omega, by omega⟩⟩
  · rintro ⟨h1, h2, h3⟩
    exact ⟨⟨h1, by omega⟩, fun j hj => h3 j (by omega) (by omega)⟩

/-- C7 (amended): index `i` is a swing high iff `high[i]` is the maximum of
the closed window `[i-left, i+right]` and `i` is at least `left` from the
start and `right` from the end (symmetric minimum rule for swing lows); and
for a strictly unimodal high sequence with `left = right = 2` whose peak `p`
lies at least 2 from both ends, `p` is the only reported swing high. (The
claim's unimodal corollary fails without the peak-interiority proviso: see
the counterexample, where the peak sits at index 1.) -/
theorem c7_swing_detector :
    (∀ (candles : List Candle) (left right i : Nat),
      i ∈ (find_swings candles left right).1 ↔
        left ≤ i ∧ i + right < candles.length ∧
          ∀ j, i - left ≤ j → j ≤ i + right →
            (candles.getD j default).h ≤ (candles.getD i default).h) ∧
    (∀ (candles : List Candle) (left right i : Nat),
      i ∈ (find_swings candles left right).2 ↔
        left ≤ i ∧ i + right < candles.length ∧
          ∀ j, i - left ≤ j → j ≤ i + right →
            (candles.getD i default).l ≤ (candles.getD j default).l) ∧
    (∀ (candles : List Candle) (p : Nat),
      2 ≤ p → p + 2 < candles.length →
      (∀ i, i < p → (candles.getD i default).h < (candles.getD (i + 1) default).h) →
      (∀ i, p ≤ i → i + 1 < candles.length →
        (candles.getD (i + 1) default).h < (candles.getD i default).h) →
      ∀ i, i ∈ (find_swings candles 2 2).1 ↔ i = p) := by
  refine ⟨find_swings_highs_mem, find_swings_lows_mem, ?_⟩
  intro candles p hp2 hpn hrise hfall i
  constructor
  · intro hi
    rw [find_swings_highs_mem] at hi
    obtain ⟨h1, h2, h3⟩ := hi
    by_contra hne
    rcases Nat.lt_or_ge i p with hlt | hge
    · have hj := h3 (i + 1) (by omega) (by omega)
      exact absurd hj (not_le.mpr (hrise i hlt))
    · have hip : p < i := by omega
      have hj := h3 (i - 1) (by omega) (by omega)
      have hfa := hfall (i - 1) (by omega) (by omega)
      rw [show i - 1 + 1 = i by omega] at hfa
      exact absurd hj (not_le.mpr hfa)
  · intro hip
    rw [hip, find_swings_highs_mem]
    refine ⟨hp2, hpn, fun j hj1 hj2 => ?_⟩
    have hcases : j = p - 2 ∨ j = p - 1 ∨ j = p ∨ j = p + 1 ∨ j = p + 2 := by omega
    have hr1 : (candles.getD (p - 1) default).h < (candles.getD p default).h := by
      have := hrise (p - 1) (by omega)
      rwa [show p - 1 + 1 = p by omega] at this
    have hr2 : (candles.getD (p - 2) default).h < (candles.getD (p - 1) default).h := by
      have := hrise (p - 2) (by omega)
      rwa [show p - 2 + 1 = p - 1 by omega] at this
    have hf1 : (candles.getD (p + 1) default).h < (candles.getD p default).h :=
      hfall p (le_refl p) (by omega)
    have hf2 : (candles.getD (p + 2) default).h < (candles.getD (p + 1) default).h :=
      hfall (p + 1) (by omega) (by omega)
    rcases hcases with rfl | rfl | rfl | rfl | rfl
    · exact le_of_lt (lt_trans hr2 hr1)
    · exact le_of_lt hr1
    · exact le_refl _
    · exact le_of_lt hf1
    · exact le_of_lt (lt_trans hf2 hf1)

/-- C7 counterexample: `candlesCE7` is strictly unimodal (rising then falling)
with its single global maximum at index 1, yet with `left = right = 2` the
swing detector reports no swing high at all, so the global maximum is not
reported. -/
theorem c7_counterexample :
    (∀ i, i < 1 → (candlesCE7.getD i default).h < (candlesCE7.getD (i + 1) default).h) ∧
    (∀ i, 1 ≤ i → i + 1 < candlesCE7.length →
      (candlesCE7.getD (i + 1) default).h < (candlesCE7.getD i default).h) ∧
    (∀ j, j < candlesCE7.length →
      (candlesCE7.getD j default).h ≤ (candlesCE7.getD 1 default).h) ∧
    ¬ (1 ∈ (find_swings candlesCE7 2 2).1) := by
  refine ⟨?_, ?_, ?_, ?_⟩
  · intro i hi
    interval_cases i
    norm_num [candlesCE7]
  · intro i hi1 hi2
    have hi2b : i ≤ 4 := by have := hi2; simp [candlesCE7] at this; omega
    interval_cases i <;> norm_num [candlesCE7]
  · intro j hj
    have hjb : j < 6 := by simpa [candlesCE7] using hj
    interval_cases j <;> norm_num [candlesCE7]
  · rw [find_swings_highs_mem]
    rintro ⟨h1, -, -⟩
    omega

/-- C7 witness for the amended claim: on `candlesW7` (peak at index 2, two
bars from each end) the detector reports index 2, and only index 2, as a
swing high. -/
theorem c7_witness :
    (2 ∈ (find_swings candlesW7 2 2).1 ↔ (2 : Nat) = 2) ∧
    (1 ∈ (find_swings candlesW7 2 2).1 ↔ (1 : Nat) = 2) :=
  have hthm := c7_swing_detector.2.2 candlesW7 2 (by decide) (by decide)
    (by
      intro i hi
      interval_cases i <;> norm_num [candlesW7])
    (by
      intro i hi1 hi2
      have hi2b : i ≤ 4 := by have := hi2; simp [candlesW7] at this; omega
      interval_cases i <;> norm_num [candlesW7])
  ⟨hthm 2, hthm 1⟩

lemma foldl_break_eq_findSome? {β : Type} (f : Nat → Option β) :
    ∀ (l : List Nat) (acc : Option β),
      l.foldl (breakStep f) acc
        = match acc with | some b => some b | none => l.findSome? f := by
  intro l
  induction l with
  | nil => intro acc; cases acc <;> simp
  | cons a t ih =>
    intro acc
    cases acc with
    | some b =>
      rw [List.foldl_cons]
      have hst : breakStep f (some b) a = some b := rfl
      rw [hst]
      exact ih (some b)
    | none =>
      rw [List.foldl_cons, List.findSome?_cons]
      have hst : breakStep f none a = f a := rfl
      rw [hst]
      cases hfa : f a with
      | some b => simpa using ih (some b)
      | none => simpa using ih none

lemma findSome?_none_of {α β : Type} (f : α → Option β) :
    ∀ l : List α, (∀ x ∈ l, f x = none) → l.findSome? f = none := by
  intro l
  induction l with
  | nil => intro h; simp
  | cons a t ih =>
    intro h
    rw [List.findSome?_cons, h a (by simp)]
    exact ih fun x hx => h x (by simp [hx])

lemma structureBaseEnd?_eq_spec (candles : List Candle) (highs lows : List Nat) :
    structureBaseEnd? candles highs lows = specBaseEnd? candles highs lows := by
  unfold structureBaseEnd? specBaseEnd?
  by_cases hl : lows.isEmpty
  · rw [if_pos (by simp [hl])]
    rw [List.isEmpty_iff] at hl
    subst hl
    simp
  · by_cases hh : highs.isEmpty
    · rw [if_pos (by simp [hh])]
      rw [List.isEmpty_iff] at hh
      subst hh
      rw [findSome?_none_of]
      intro x hx
      simp
    · rw [if_neg (by simp [hl, hh])]
      rw [foldl_break_eq_findSome? (structureScanLow candles highs) lows none]
      show List.findSome? (structureScanLow candles highs) lows = _
      congr 1
      funext li
      unfold structureScanLow
      cases hfi : highs.find? fun hi => decide (li < hi) with
      | none => simp [hfi]
      | some hi0 => simp [hfi]

lemma find_swings_sorted (candles : List Candle) (left right : Nat) :
    List.Pairwise (· < ·) (find_swings candles left right).1 ∧
    List.Pairwise (· < ·) (find_swings candles left right).2 := by
  constructor <;>
  · simp only [find_swings]
    exact (List.pairwise_lt_range' _ _ 1).filter _

lemma find?_min_of_sorted (p : Nat → Bool) :
    ∀ (l : List Nat), List.Pairwise (· < ·) l →
    ∀ a : Nat, l.find? p = some a → ∀ b ∈ l, p b = true → a ≤ b := by
  intro l
  induction l with
  | nil => intro _ a ha; cases ha
  | cons x t ih =>
    intro hl a ha b hb hpb
    rw [List.find?_cons] at ha
    cases hpx : p x with
    | true =>
      rw [hpx] at ha
      cases ha
      rcases List.mem_cons.mp hb with rfl | hbt
      · exact le_refl _
      · exact le_of_lt ((List.pairwise_cons.mp hl).1 b hbt)
    | false =>
      rw [hpx] at ha
      rcases List.mem_cons.mp hb with rfl | hbt
      · rw [hpx] at hpb; cases hpb
      · exact ih (List.pairwise_cons.mp hl).2 a ha b hbt hpb

lemma max_zero_toNat (x : Int) : (max 0 x).toNat = x.toNat := by omega

/-- C5: the Structure stage's base end. The source's early-exit double loop
(first swing low in chronological order that admits a breakout wins) equals
the specification's `findSome?` formulation; the swing index lists are
strictly increasing (chronological); the inner `find?` picks the earliest
swing high after the low and the earliest breakout close after that high; and
when no breakout exists (or either swing list is empty) the result falls back
to `int(0.35 * n)`. -/
theorem c5_base_end_search (candles : List Candle) (params : Params) :
    ((structureRun candles params).base_end_idx
        = ((specBaseEnd? candles
            (find_swings candles params.swing_left params.swing_right).1
            (find_swings candles params.swing_left params.swing_right).2).getD
            (pct candles.length 35 100))) ∧
    List.Pairwise (· < ·) (find_swings candles params.swing_left params.swing_right).1 ∧
    List.Pairwise (· < ·) (find_swings candles params.swing_left params.swing_right).2 ∧
    (∀ (li hi0 : Nat),
      ((find_swings candles params.swing_left params.swing_right).1.find? fun hi =>
          decide (li < hi)) = some hi0 →
      li < hi0 ∧ hi0 ∈ (find_swings candles params.swing_left params.swing_right).1 ∧
        ∀ hi ∈ (find_swings candles params.swing_left params.swing_right).1,
          li < hi → hi0 ≤ hi) ∧
    (∀ (hi0 j : Nat),
      ((List.range' (hi0 + 1) (candles.length - (hi0 + 1))).find? fun j =>
          decide ((candles.getD hi0 default).h < (candles.getD j default).c)) = some j →
      hi0 < j ∧ j < candles.length ∧
        (candles.getD hi0 default).h < (candles.getD j default).c ∧
        ∀ j2, hi0 < j2 → j2 < candles.length →
          (candles.getD hi0 default).h < (candles.getD j2 default).c → j ≤ j2) := by
  refine ⟨?_, (find_swings_sorted candles _ _).1, (find_swings_sorted candles _ _).2,
    ?_, ?_⟩
  · simp only [structureRun]
    rw [structureBaseEnd?_eq_spec]
    cases h : specBaseEnd? candles
        (find_swings candles params.swing_left params.swing_right).1
        (find_swings candles params.swing_left params.swing_right).2 with
    | some b => simp
    | none =>
      simp only [Option.getD_none]
      rw [pct, max_zero_toNat]
      norm_num
  · intro li hi0 hfind
    have hmem := List.mem_of_find?_eq_some hfind
    have hp := List.find?_some hfind
    rw [decide_eq_true_eq] at hp
    refine ⟨hp, hmem, fun hi hhi hlihi => ?_⟩
    exact find?_min_of_sorted _ _ (find_swings_sorted candles _ _).1 hi0 hfind hi hhi
      (by rw [decide_eq_true_eq]; exact hlihi)
  · intro hi0 j hfind
    have hmem := List.mem_of_find?_eq_some hfind
    rw [List.mem_range'_1] at hmem
    have hp := List.find?_some hfind
    rw [decide_eq_true_eq] at hp
    have hmin := find?_min_of_sorted _ _ (List.pairwise_lt_range' (hi0 + 1)
      (candles.length - (hi0 + 1)) 1) j hfind
    refine ⟨by omega, by omega, hp, fun j2 hj1 hj2 hgt => ?_⟩
    exact hmin j2 (by rw [List.mem_range'_1]; omega) (by rw [decide_eq_true_eq]; exact hgt)

/-- C5 witness: the equality and the first-breakout facts instantiated on a
concrete series (the fold and the specification agree, with the 35 percent
fallback). -/
theorem c5_witness :
    (structureRun candlesCE7 {}).base_end_idx
      = ((specBaseEnd? candlesCE7
          (find_swings candlesCE7 (3 : Nat) (3 : Nat)).1
          (find_swings candlesCE7 (3 : Nat) (3 : Nat)).2).getD
          (pct candlesCE7.length 35 100)) :=
  (c5_base_end_search candlesCE7 {}).1

lemma trueWin_start_ge (mask : List Bool) (z0 z1 s s2 e2 : Nat)
    (hw : TrueWin mask z0 z1 s2 e2)
    (hmax : s = z0 ∨ mask.getD (s - 1) false = false)
    (hse : s ≤ e2) : s ≤ s2 := by
  by_contra hc
  push_neg at hc
  obtain ⟨hz0, hs2e2, he2z1, hall⟩ := hw
  rcases hmax with rfl | hm
  · omega
  · have hs1 : mask.getD (s - 1) false = true := hall (s - 1) (by omega) (by omega)
    rw [hm] at hs1
    cases hs1

lemma fltwInv_init (mask : List Bool) (z0 z1 : Nat) :
    FltwInv mask z0 z1 z0 ((none, none, 0), none, 0) := by
  refine ⟨⟨rfl, Or.inl rfl⟩, ⟨rfl, rfl⟩, ?_, ?_⟩
  · intro s2 e2 hw he2 _
    obtain ⟨hz0, hs2e2, -, -⟩ := hw
    exfalso
    omega
  · intro s2 e2 hw he2 _ _
    obtain ⟨hz0, hs2e2, -, -⟩ := hw
    exfalso
    omega

lemma fltwInv_step (mask : List Bool) (z0 z1 p : Nat)
    (obs obe : Option Nat) (bl : Nat) (ocs : Option Nat) (cl : Nat)
    (hp0 : z0 ≤ p) (_hp1 : p ≤ z1)
    (h : FltwInv mask z0 z1 p ((obs, obe, bl), ocs, cl)) :
    FltwInv mask z0 z1 (p + 1) (fltwStep mask ((obs, obe, bl), ocs, cl) p) := by
  obtain ⟨hcur, hbest, hmax, htie⟩ := h
  have hmaxb : ∀ s2 e2, TrueWin mask z0 z1 s2 e2 → e2 < p →
      (∀ s, ocs = some s → e2 < s) → e2 + 1 - s2 ≤ bl := hmax
  have htieb : ∀ s2 e2, TrueWin mask z0 z1 s2 e2 → e2 < p →
      (∀ s, ocs = some s → e2 < s) → e2 + 1 - s2 = bl →
      ∃ bs, obs = some bs ∧ bs ≤ s2 := htie
  unfold fltwStep
  by_cases hm : mask.getD p false = true
  · rw [if_pos hm]
    cases ocs with
    | none =>
      obtain ⟨hcl, hprev⟩ := hcur
      have hclb : cl = 0 := hcl
      show FltwInv mask z0 z1 (p + 1) ((obs, obe, bl), some p, 1)
      refine ⟨⟨hp0, by omega, by dsimp only; omega, ?_, hprev⟩, ?_, ?_, ?_⟩
      · intro i hi1 hi2
        have hi : i = p := by omega
        rw [hi]
        exact hm
      · cases obs with
        | none => exact hbest
        | some bs =>
          obtain ⟨be, hobe, hbs0, hbsbe, hbep, hbl, hallb, hmb, -⟩ := hbest
          have hbepb : be + 1 < p := hbep
          exact ⟨be, hobe, hbs0, hbsbe, by omega, hbl, hallb, hmb,
            fun s hs => by cases hs; omega⟩
      · intro s2 e2 hw he2 hgate
        have he2p : e2 < p := hgate p rfl
        exact hmaxb s2 e2 hw he2p (fun s hs => by cases hs)
      · intro s2 e2 hw he2 hgate hlen
        have he2p : e2 < p := hgate p rfl
        exact htieb s2 e2 hw he2p (fun s hs => by cases hs) hlen
    | some s =>
      obtain ⟨hz0s, hsp, hcl, hall, hlmax⟩ := hcur
      have hspb : s < p := hsp
      have hclb : cl = p - s := hcl
      have hallb2 : ∀ i, s ≤ i → i < p → mask.getD i false = true := hall
      show FltwInv mask z0 z1 (p + 1) ((obs, obe, bl), some s, cl + 1)
      refine ⟨⟨hz0s, by omega, by dsimp only; omega, ?_, hlmax⟩, ?_, ?_, ?_⟩
      · intro i hi1 hi2
        rcases Nat.lt_or_ge i p with hip | hip
        · exact hallb2 i hi1 hip
        · have hi : i = p := by omega
          rw [hi]
          exact hm
      · cases obs with
        | none => exact hbest
        | some bs =>
          obtain ⟨be, hobe, hbs0, hbsbe, hbep, hbl, hallb, hmb, hgt⟩ := hbest
          have hbepb : be + 1 < p := hbep
          exact ⟨be, hobe, hbs0, hbsbe, by omega, hbl, hallb, hmb,
            fun s2 hs2 => by cases hs2; exact hgt s rfl⟩
      · intro s2 e2 hw he2 hgate
        have he2s : e2 < s := hgate s rfl
        exact hmaxb s2 e2 hw (by omega) (fun s3 hs3 => by cases hs3; omega)
      · intro s2 e2 hw he2 hgate hlen
        have he2s : e2 < s := hgate s rfl
        exact htieb s2 e2 hw (by omega) (fun s3 hs3 => by cases hs3; omega) hlen
  · have hmf : mask.getD p false = false := by
      revert hm
      cases mask.getD p false <;> simp
    rw [if_neg hm]
    have hnotp : ∀ s2 e2, TrueWin mask z0 z1 s2 e2 → e2 < p + 1 → e2 < p := by
      intro s2 e2 hw he2
      obtain ⟨hwa, hwb, hwc, hwd⟩ := hw
      rcases Nat.lt_or_ge e2 p with h1 | h1
      · exact h1
      · exfalso
        have he2p : e2 = p := by omega
        have hmt := hwd p (by omega) (by omega)
        rw [hmf] at hmt
        cases hmt
    cases ocs with
    | none =>
      obtain ⟨hcl, hprev⟩ := hcur
      show FltwInv mask z0 z1 (p + 1) ((obs, obe, bl), none, 0)
      refine ⟨⟨rfl, Or.inr (by simpa using hmf)⟩, ?_, ?_, ?_⟩
      · cases obs with
        | none => exact hbest
        | some bs =>
          obtain ⟨be, hobe, hbs0, hbsbe, hbep, hbl, hallb, hmb, -⟩ := hbest
          have hbepb : be + 1 < p := hbep
          exact ⟨be, hobe, hbs0, hbsbe, by omega, hbl, hallb, hmb,
            fun s hs => by cases hs⟩
      · intro s2 e2 hw he2 _
        exact hmaxb s2 e2 hw (hnotp s2 e2 hw he2) (fun s hs => by cases hs)
      · intro s2 e2 hw he2 _ hlen
        exact htieb s2 e2 hw (hnotp s2 e2 hw he2) (fun s hs => by cases hs) hlen
    | some s =>
      obtain ⟨hz0s, hsp, hcl, hall, hlmax⟩ := hcur
      have hspb : s < p := hsp
      have hclb : cl = p - s := hcl
      have hallb2 : ∀ i, s ≤ i → i < p → mask.getD i false = true := hall
      have hwin_le : ∀ s2 e2, TrueWin mask z0 z1 s2 e2 → e2 < p + 1 → s ≤ e2 →
          s ≤ s2 ∧ e2 + 1 - s2 ≤ cl := by
        intro s2 e2 hw he2 hse2
        have he2p : e2 < p := hnotp s2 e2 hw he2
        have hs2 := trueWin_start_ge mask z0 z1 s s2 e2 hw hlmax hse2
        exact ⟨hs2, by omega⟩
      show FltwInv mask z0 z1 (p + 1)
        ((if bl < cl then (some s, some (p - 1), cl) else (obs, obe, bl)), none, 0)
      by_cases hbl : bl < cl
      · rw [if_pos hbl]
        show FltwInv mask z0 z1 (p + 1) ((some s, some (p - 1), cl), none, 0)
        refine ⟨⟨rfl, Or.inr (by simpa using hmf)⟩, ?_, ?_, ?_⟩
        · refine ⟨p - 1, rfl, hz0s, by omega, by omega, by omega, ?_, ?_,
            fun s2 hs2 => by cases hs2⟩
          · intro i hi1 hi2
            exact hallb2 i hi1 (by omega)
          · have hpp : p - 1 + 1 = p := by omega
            rw [hpp]
            exact hmf
        · intro s2 e2 hw he2 _
          dsimp only
          rcases Nat.lt_or_ge e2 s with hlt | hge
          · have := hmaxb s2 e2 hw (by omega) (fun s3 hs3 => by cases hs3; omega)
            omega
          · have := (hwin_le s2 e2 hw he2 hge).2
            omega
        · intro s2 e2 hw he2 _ hlen
          have hlenb : e2 + 1 - s2 = cl := hlen
          rcases Nat.lt_or_ge e2 s with hlt | hge
          · have := hmaxb s2 e2 hw (by omega) (fun s3 hs3 => by cases hs3; omega)
            omega
          · exact ⟨s, rfl, (hwin_le s2 e2 hw he2 hge).1⟩
      · rw [if_neg hbl]
        show FltwInv mask z0 z1 (p + 1) ((obs, obe, bl), none, 0)
        refine ⟨⟨rfl, Or.inr (by simpa using hmf)⟩, ?_, ?_, ?_⟩
        · cases obs with
          | none => exact hbest
          | some bs =>
            obtain ⟨be, hobe, hbs0, hbsbe, hbep, hblv, hallb, hmb, -⟩ := hbest
            have hbepb : be + 1 < p := hbep
            exact ⟨be, hobe, hbs0, hbsbe, by omega, hblv, hallb, hmb,
              fun s2 hs2 => by cases hs2⟩
        · intro s2 e2 hw he2 _
          dsimp only
          rcases Nat.lt_or_ge e2 s with hlt | hge
          · exact hmaxb s2 e2 hw (by omega) (fun s3 hs3 => by cases hs3; omega)
          · have := (hwin_le s2 e2 hw he2 hge).2
            omega
        · intro s2 e2 hw he2 _ hlen
          have hlenb : e2 + 1 - s2 = bl := hlen
          rcases Nat.lt_or_ge e2 s with hlt | hge
          · exact htieb s2 e2 hw (by omega) (fun s3 hs3 => by cases hs3; omega) hlen
          · obtain ⟨hs2, hle⟩ := hwin_le s2 e2 hw he2 hge
            cases obs with
            | none =>
              obtain ⟨-, hbl0⟩ := hbest
              have hbl0b : bl = 0 := hbl0
              exfalso
              have h1 : 1 ≤ e2 + 1 - s2 := by
                have hse := hw.2.1
                omega
              omega
            | some bs =>
              obtain ⟨be, hobe, hbs0, hbsbe, hbep, hblv, hallb, hmb, hgt⟩ := hbest
              have hbes : be < s := hgt s rfl
              have hbsbeb : bs ≤ be := hbsbe
              exact ⟨bs, rfl, by omega⟩

lemma fltwInv_fold (mask : List Bool) (z0 z1 : Nat) :
    ∀ (cnt p : Nat) (st : (Option Nat × Option Nat × Nat) × Option Nat × Nat),
      z0 ≤ p → p + cnt = z1 + 1 → FltwInv mask z0 z1 p st →
      FltwInv mask z0 z1 (z1 + 1) ((List.range' p cnt).foldl (fltwStep mask) st) := by
  intro cnt
  induction cnt with
  | zero =>
    intro p st hp0 hpc h
    have hp : p = z1 + 1 := by omega
    rw [hp] at h
    simpa using h
  | succ k ih =>
    intro p st hp0 hpc h
    rw [List.range'_succ, List.foldl_cons]
    refine ih (p + 1) _ (by omega) (by omega) ?_
    obtain ⟨⟨obs, obe, bl⟩, ocs, cl⟩ := st
    exact fltwInv_step mask z0 z1 p obs obe bl ocs cl hp0 (by omega) h

/-- Full characterization of `_find_longest_true_window` on `[z0, z1]`:
either the zone holds no `true` at all and the result is `(None, None, 0)`,
or the result is the first longest run: a true window whose length bounds
every true window in the zone, with ties resolved to the earliest start. -/
lemma fltw_char (mask : List Bool) (z0 z1 : Nat) :
    (find_longest_true_window mask z0 z1 = (none, none, 0) ∧
      ∀ i, z0 ≤ i → i ≤ z1 → mask.getD i false = false) ∨
    (∃ s e, find_longest_true_window mask z0 z1 = (some s, some e, e + 1 - s) ∧
      TrueWin mask z0 z1 s e ∧
      (∀ s2 e2, TrueWin mask z0 z1 s2 e2 → e2 + 1 - s2 ≤ e + 1 - s) ∧
      (∀ s2 e2, TrueWin mask z0 z1 s2 e2 → e2 + 1 - s2 = e + 1 - s → s ≤ s2)) := by
  by_cases hz : z0 ≤ z1
  case neg =>
    left
    constructor
    · unfold find_longest_true_window
      have hc : z1 + 1 - z0 = 0 := by omega
      rw [hc]
      rfl
    · intro i h1 h2
      exact absurd h2 (by omega)
  case pos =>
    have hfold := fltwInv_fold mask z0 z1 (z1 + 1 - z0) z0 ((none, none, 0), none, 0)
      (le_refl z0) (by omega) (fltwInv_init mask z0 z1)
    rcases hst : (List.range' z0 (z1 + 1 - z0)).foldl (fltwStep mask)
        ((none, none, 0), none, 0) with ⟨⟨obs, obe, bl⟩, ocs, cl⟩
    rw [hst] at hfold
    obtain ⟨hcur, hbest, hmax, htie⟩ := hfold
    have hmaxb : ∀ s2 e2, TrueWin mask z0 z1 s2 e2 → e2 < z1 + 1 →
        (∀ s, ocs = some s → e2 < s) → e2 + 1 - s2 ≤ bl := hmax
    have htieb : ∀ s2 e2, TrueWin mask z0 z1 s2 e2 → e2 < z1 + 1 →
        (∀ s, ocs = some s → e2 < s) → e2 + 1 - s2 = bl →
        ∃ bs, obs = some bs ∧ bs ≤ s2 := htie
    cases ocs with
    | none =>
      have hres : find_longest_true_window mask z0 z1 = (obs, obe, bl) := by
        unfold find_longest_true_window
        rw [hst]
      cases obs with
      | none =>
        obtain ⟨hobe, hbl0⟩ := hbest
        have hobeb : obe = none := hobe
        have hbl0b : bl = 0 := hbl0
        left
        refine ⟨by rw [hres, hobeb, hbl0b], ?_⟩
        intro i h1 h2
        by_contra hmt
        have hmt2 : mask.getD i false = true := by
          revert hmt
          cases mask.getD i false <;> simp
        have hw : TrueWin mask z0 z1 i i := ⟨h1, le_refl i, h2, fun j hj1 hj2 => by
          have hj : j = i := by omega
          rw [hj]
          exact hmt2⟩
        have := hmaxb i i hw (by omega) (fun s hs => by cases hs)
        omega
      | some bs =>
        obtain ⟨be, hobe, hbs0, hbsbe, hbep, hbl, hallb, hmb, -⟩ := hbest
        have hobeb : obe = some be := hobe
        have hblb : bl = be + 1 - bs := hbl
        have hbepb : be + 1 < z1 + 1 := hbep
        right
        refine ⟨bs, be, by rw [hres, hobeb, hblb], ⟨hbs0, hbsbe, by omega, hallb⟩, ?_, ?_⟩
        · intro s2 e2 hw
          have := hmaxb s2 e2 hw (by
            obtain ⟨-, -, hc, -⟩ := hw
            omega) (fun s hs => by cases hs)
          omega
        · intro s2 e2 hw hlen
          obtain ⟨bs2, hbs2, hle⟩ := htieb s2 e2 hw (by
            obtain ⟨-, -, hc, -⟩ := hw
            omega) (fun s hs => by cases hs) (by omega)
          cases hbs2
          exact hle
    | some s =>
      obtain ⟨hz0s, hsp, hcl, hall, hlmax⟩ := hcur
      have hspb : s < z1 + 1 := hsp
      have hclb : cl = z1 + 1 - s := hcl
      have hallb2 : ∀ i, s ≤ i → i < z1 + 1 → mask.getD i false = true := hall
      have hwtop : TrueWin mask z0 z1 s z1 :=
        ⟨hz0s, by omega, le_refl z1, fun i hi1 hi2 => hallb2 i hi1 (by omega)⟩
      have hcross : ∀ s2 e2, TrueWin mask z0 z1 s2 e2 → s ≤ e2 →
          s ≤ s2 ∧ e2 + 1 - s2 ≤ cl := by
        intro s2 e2 hw hse2
        have hs2 := trueWin_start_ge mask z0 z1 s s2 e2 hw hlmax hse2
        obtain ⟨-, -, hc, -⟩ := hw
        exact ⟨hs2, by omega⟩
      by_cases hbl : bl < cl
      · have hres : find_longest_true_window mask z0 z1 = (some s, some z1, cl) := by
          unfold find_longest_true_window
          rw [hst]
          show (if bl < cl then (some s, some z1, cl) else (obs, obe, bl)) = _
          rw [if_pos hbl]
        right
        refine ⟨s, z1, by rw [hres, hclb], hwtop, ?_, ?_⟩
        · intro s2 e2 hw
          rcases Nat.lt_or_ge e2 s with hlt | hge
          · have := hmaxb s2 e2 hw (by
              obtain ⟨-, -, hc, -⟩ := hw
              omega) (fun s3 hs3 => by cases hs3; omega)
            omega
          · have := (hcross s2 e2 hw hge).2
            omega
        · intro s2 e2 hw hlen
          rcases Nat.lt_or_ge e2 s with hlt | hge
          · have := hmaxb s2 e2 hw (by
              obtain ⟨-, -, hc, -⟩ := hw
              omega) (fun s3 hs3 => by cases hs3; omega)
            omega
          · exact (hcross s2 e2 hw hge).1
      · have hres : find_longest_true_window mask z0 z1 = (obs, obe, bl) := by
          unfold find_longest_true_window
          rw [hst]
          show (if bl < cl then (some s, some z1, cl) else (obs, obe, bl)) = _
          rw [if_neg hbl]
        cases obs with
        | none =>
          obtain ⟨-, hbl0⟩ := hbest
          have hbl0b : bl = 0 := hbl0
          exfalso
          omega
        | some bs =>
          obtain ⟨be, hobe, hbs0, hbsbe, hbep, hblv, hallb, hmb, hgt⟩ := hbest
          have hobeb : obe = some be := hobe
          have hblb : bl = be + 1 - bs := hblv
          have hbepb : be + 1 < z1 + 1 := hbep
          have hbes : be < s := hgt s rfl
          right
          refine ⟨bs, be, by rw [hres, hobeb, hblb], ⟨hbs0, hbsbe, by omega, hallb⟩, ?_, ?_⟩
          · intro s2 e2 hw
            rcases Nat.lt_or_ge e2 s with hlt | hge
            · have := hmaxb s2 e2 hw (by
                obtain ⟨-, -, hc, -⟩ := hw
                omega) (fun s3 hs3 => by cases hs3; omega)
              omega
            · have := (hcross s2 e2 hw hge).2
              omega
          · intro s2 e2 hw hlen
            rcases Nat.lt_or_ge e2 s with hlt | hge
            · obtain ⟨bs2, hbs2, hle⟩ := htieb s2 e2 hw (by
                obtain ⟨-, -, hc, -⟩ := hw
                omega) (fun s3 hs3 => by cases hs3; omega) (by omega)
              cases hbs2
              exact hle
            · have := (hcross s2 e2 hw hge).1
              omega

lemma pyTrunc_eq_floor (q : ℚ) (h : 0 ≤ q) : pyTrunc q = ⌊q⌋ := by
  unfold pyTrunc
  rw [Rat.floor_def]
  exact Int.tdiv_eq_ediv (Rat.num_nonneg.mpr h) (by positivity)

lemma pyTrunc_nonneg (q : ℚ) (h : 0 ≤ q) : 0 ≤ pyTrunc q := by
  rw [pyTrunc_eq_floor q h]
  exact Int.floor_nonneg.mpr h

lemma pyTrunc_le_of_le (q : ℚ) (m : Nat) (h0 : 0 ≤ q) (h : q ≤ (m : ℚ)) :
    pyTrunc q ≤ (m : Int) := by
  rw [pyTrunc_eq_floor q h0]
  calc ⌊q⌋ ≤ ⌊(m : ℚ)⌋ := Int.floor_le_floor h
  _ = (m : Int) := Int.floor_natCast m

lemma pct_lt_self (n num den : Nat) (hn : 1 ≤ n) (hnd : num < den) (hd : 0 < den) :
    pct n num den < n := by
  unfold pct
  have hq : 0 ≤ (n : ℚ) * ((num : ℚ) / (den : ℚ)) := by positivity
  have hlt : (n : ℚ) * ((num : ℚ) / (den : ℚ)) < (n : ℚ) := by
    have h1 : (num : ℚ) / (den : ℚ) < 1 := by
      rw [div_lt_one (by positivity)]
      exact_mod_cast hnd
    calc (n : ℚ) * ((num : ℚ) / (den : ℚ)) < (n : ℚ) * 1 :=
        mul_lt_mul_of_pos_left h1 (by exact_mod_cast hn)
    _ = (n : ℚ) := mul_one _
  rw [pyTrunc_eq_floor _ hq]
  have h2 : ⌊(n : ℚ) * ((num : ℚ) / (den : ℚ))⌋ < (n : Int) := by
    rw [Int.floor_lt]
    push_cast
    exact hlt
  omega

lemma pct_mono (n a b den : Nat) (hab : a ≤ b) (hd : 0 < den) :
    pct n a den ≤ pct n b den := by
  unfold pct
  have hq : 0 ≤ (n : ℚ) * ((a : ℚ) / (den : ℚ)) := by positivity
  have hq2 : 0 ≤ (n : ℚ) * ((b : ℚ) / (den : ℚ)) := by positivity
  have hle : (n : ℚ) * ((a : ℚ) / (den : ℚ)) ≤ (n : ℚ) * ((b : ℚ) / (den : ℚ)) := by
    apply mul_le_mul_of_nonneg_left _ (by positivity)
    apply div_le_div_of_nonneg_right _ (by positivity)
    exact_mod_cast hab
  rw [pyTrunc_eq_floor _ hq, pyTrunc_eq_floor _ hq2]
  have := Int.floor_le_floor hle
  omega

/-- C4: the entry window. When the zone holds no compressed bar, the window
falls back to the last 40 percent of the zone
(`z0 + int((z1 - z0) * 0.6) .. z1`) with confidence exactly 0.35; otherwise
the selected `[s, e]` is a compressed run inside the zone, no compressed run
in the zone is longer, any equally long run starts no earlier (first-found
tie-break: only strictly longer runs replace the best), and the confidence is
`clamp(len / max(10, zoneLen), 0.35, 0.85)`. -/
theorem c4_entry_window (candles : List Candle) (compression : List Bool) (z0 z1 : Nat) :
    ((∀ i, z0 ≤ i → i ≤ z1 → compression.getD i false = false) →
      find_longest_true_window compression z0 z1 = (none, none, 0) ∧
      (entry_window candles compression (z0, z1)).1
        = some (pyGet candles ((z0 : Int) +
            pyTrunc ((((z1 : Int) - (z0 : Int) : Int) : ℚ) * (6 / 10)))).ts ∧
      (entry_window candles compression (z0, z1)).2.1 = some (pyGet candles (z1 : Int)).ts ∧
      (entry_window candles compression (z0, z1)).2.2.1 = 35 / 100) ∧
    ((∃ i, z0 ≤ i ∧ i ≤ z1 ∧ compression.getD i false = true) →
      ∃ s e, find_longest_true_window compression z0 z1 = (some s, some e, e + 1 - s) ∧
        TrueWin compression z0 z1 s e ∧
        (∀ s2 e2, TrueWin compression z0 z1 s2 e2 → e2 + 1 - s2 ≤ e + 1 - s) ∧
        (∀ s2 e2, TrueWin compression z0 z1 s2 e2 → e2 + 1 - s2 = e + 1 - s → s ≤ s2) ∧
        (entry_window candles compression (z0, z1)).1 = some (pyGet candles (s : Int)).ts ∧
        (entry_window candles compression (z0, z1)).2.1 = some (pyGet candles (e : Int)).ts ∧
        (entry_window candles compression (z0, z1)).2.2.1
          = clamp (((e + 1 - s : Nat) : ℚ) / ((max 10 (z1 + 1 - z0) : Nat) : ℚ))
              (35 / 100) (85 / 100)) := by
  rcases fltw_char compression z0 z1 with ⟨hres, hnone⟩ | ⟨s, e, hres, hw, hmax2, htie2⟩
  · constructor
    · intro _
      refine ⟨hres, ?_, ?_, ?_⟩ <;> simp [entry_window, hres]
    · rintro ⟨i, h1, h2, h3⟩
      rw [hnone i h1 h2] at h3
      cases h3
  · constructor
    · intro hnone
      obtain ⟨hwa, hwb, hwc, hwd⟩ := hw
      have := hwd s (le_refl s) hwb
      rw [hnone s hwa (le_trans hwb hwc)] at this
      cases this
    · intro _
      refine ⟨s, e, hres, hw, hmax2, htie2, ?_, ?_, ?_⟩ <;>
        simp [entry_window, hres]

/-- C4 witness: on the mask with two equal runs `[1,2]` and `[4,5]` over the
zone `[0, 6]`, the first run is selected with its length, confidence and
window facts given by the theorem. -/
theorem c4_witness :
    (∃ i, 0 ≤ i ∧ i ≤ 6 ∧ maskW4.getD i false = true) ∧
    (∃ s e, find_longest_true_window maskW4 0 6 = (some s, some e, e + 1 - s) ∧
      TrueWin maskW4 0 6 s e ∧
      (∀ s2 e2, TrueWin maskW4 0 6 s2 e2 → e2 + 1 - s2 ≤ e + 1 - s) ∧
      (∀ s2 e2, TrueWin maskW4 0 6 s2 e2 → e2 + 1 - s2 = e + 1 - s → s ≤ s2) ∧
      (entry_window candlesW4 maskW4 (0, 6)).1 = some (pyGet candlesW4 (s : Int)).ts ∧
      (entry_window candlesW4 maskW4 (0, 6)).2.1 = some (pyGet candlesW4 (e : Int)).ts ∧
      (entry_window candlesW4 maskW4 (0, 6)).2.2.1
        = clamp (((e + 1 - s : Nat) : ℚ) / ((max 10 (6 + 1 - 0) : Nat) : ℚ))
            (35 / 100) (85 / 100)) :=
  ⟨⟨1, by decide, by decide, by decide⟩,
   (c4_entry_window candlesW4 maskW4 0 6).2 ⟨1, by decide, by decide, by decide⟩⟩

lemma pyTrunc_eval (q : ℚ) (a : Int) (b : Nat) (h1 : q.num = a) (h2 : q.den = b) :
    pyTrunc q = a.tdiv b := by
  unfold pyTrunc
  rw [h1, h2]

lemma pct_eval (n num den : Nat) (a : Int) (b r : Nat)
    (h1 : ((n : ℚ) * ((num : ℚ) / (den : ℚ))).num = a)
    (h2 : ((n : ℚ) * ((num : ℚ) / (den : ℚ))).den = b)
    (h3 : (a.tdiv b).toNat = r) :
    pct n num den = r := by
  unfold pct pyTrunc
  rw [h1, h2, h3]

lemma pyGet_nonneg (candles : List Candle) (i : Int) (h : 0 ≤ i) :
    pyGet candles i = candles.getD i.toNat default := by
  unfold pyGet
  rw [if_neg (by omega)]

lemma entry_window_ts_le (candles : List Candle) (comp : List Bool) (z0 z1 : Nat)
    (hz : z0 ≤ z1) (hz1 : z1 < candles.length)
    (hsorted : ∀ i j : Nat, i ≤ j → j < candles.length →
      (candles.getD i default).ts ≤ (candles.getD j default).ts) :
    ∀ a b, (entry_window candles comp (z0, z1)).1 = some a →
      (entry_window candles comp (z0, z1)).2.1 = some b → a ≤ b := by
  intro a b ha hb
  rcases fltw_char comp z0 z1 with ⟨hres, -⟩ | ⟨s, e, hres, hw, -, -⟩
  · simp only [entry_window, hres, Option.some.injEq] at ha hb
    subst ha
    subst hb
    have hd : ((((z1 : Nat) : Int) - ((z0 : Nat) : Int) : Int) : ℚ) = ((z1 - z0 : Nat) : ℚ) := by
      push_cast [Nat.cast_sub hz]
      ring
    rw [hd]
    have hq0 : (0 : ℚ) ≤ ((z1 - z0 : Nat) : ℚ) * (6 / 10) := by positivity
    have hqle : ((z1 - z0 : Nat) : ℚ) * (6 / 10) ≤ ((z1 - z0 : Nat) : ℚ) := by
      nlinarith [Nat.cast_nonneg (α := ℚ) (z1 - z0)]
    have ht0 : 0 ≤ pyTrunc (((z1 - z0 : Nat) : ℚ) * (6 / 10)) := pyTrunc_nonneg _ hq0
    have htle : pyTrunc (((z1 - z0 : Nat) : ℚ) * (6 / 10)) ≤ ((z1 - z0 : Nat) : Int) :=
      pyTrunc_le_of_le _ _ hq0 hqle
    rw [pyGet_nonneg _ _ (by omega), pyGet_nonneg _ _ (by omega)]
    apply hsorted
    · omega
    · omega
  · simp only [entry_window, hres, Option.some.injEq, Option.getD_some] at ha hb
    subst ha
    subst hb
    obtain ⟨hwa, hwb, hwc, -⟩ := hw
    rw [pyGet_nonneg _ _ (by omega), pyGet_nonneg _ _ (by omega)]
    apply hsorted
    · omega
    · omega

/-- C2 (amended): whenever `base_end_idx` does not exceed `int(0.55 * n)` —
so that no zone is inverted — every layer of `resolve_layers` on
timestamp-sorted candles has `entry_start_ts ≤ entry_end_ts` (both are always
non-null). When `base_end_idx > int(0.55 * n)`, the early zone is inverted
and the fallback can produce `entry_start_ts > entry_end_ts`: see the
counterexample. -/
theorem c2_entry_order (candles : List Candle) (tr : Traces)
    (hn : 1 ≤ candles.length)
    (hsorted : ∀ i j : Nat, i ≤ j → j < candles.length →
      (candles.getD i default).ts ≤ (candles.getD j default).ts)
    (hbe : tr.structureT.base_end_idx ≤ pct candles.length 55 100) :
    ∀ lb ∈ resolve_layers candles tr, ∀ a b,
      lb.entry_start_ts = some a → lb.entry_end_ts = some b → a ≤ b := by
  have h55 : pct candles.length 55 100 < candles.length :=
    pct_lt_self _ _ _ hn (by norm_num) (by norm_num)
  have h75 : pct candles.length 75 100 < candles.length :=
    pct_lt_self _ _ _ hn (by norm_num) (by norm_num)
  have h70 : pct candles.length 70 100 < candles.length :=
    pct_lt_self _ _ _ hn (by norm_num) (by norm_num)
  have h85 : pct candles.length 85 100 < candles.length :=
    pct_lt_self _ _ _ hn (by norm_num) (by norm_num)
  have h4575 : pct candles.length 45 100 ≤ pct candles.length 75 100 :=
    pct_mono _ _ _ _ (by norm_num) (by norm_num)
  have hzone : ∀ k, k < 5 →
      (zoneFor candles tr k).1 ≤ (zoneFor candles tr k).2 ∧
        (zoneFor candles tr k).2 < candles.length := by
    intro k hk
    interval_cases k <;> simp only [zoneFor] <;> omega
  have hlf : ∀ (num : Nat) (k : Nat), k < 5 → ∀ (w vconf : ℚ),
      ∀ a b, (layerFor candles tr.regime.compression_mask
          tr.accum_dist.distribution_flags tr.accum_dist.absorption_flags
          vconf num (zoneFor candles tr k) w).entry_start_ts = some a →
        (layerFor candles tr.regime.compression_mask
          tr.accum_dist.distribution_flags tr.accum_dist.absorption_flags
          vconf num (zoneFor candles tr k) w).entry_end_ts = some b → a ≤ b := by
    intro num k hk w v a b ha hb
    simp only [layerFor] at ha hb
    obtain ⟨hk1, hk2⟩ := hzone k hk
    exact entry_window_ts_le candles tr.regime.compression_mask
      (zoneFor candles tr k).1 (zoneFor candles tr k).2 hk1 hk2 hsorted a b ha hb
  intro lb hmem a b ha hb
  simp only [resolve_layers] at hmem
  by_cases hemp : (tr.volume.hvn.mergeSort fun a b => decide (b.2.2 ≤ a.2.2)).isEmpty
  · rw [if_pos hemp] at hmem
    simp only [List.mem_cons, List.not_mem_nil, or_false] at hmem
    rcases hmem with rfl | rfl | rfl | rfl | rfl
    · exact hlf 1 0 (by omega) _ _ a b ha hb
    · exact hlf 2 1 (by omega) _ _ a b ha hb
    · exact hlf 3 2 (by omega) _ _ a b ha hb
    · exact hlf 4 3 (by omega) _ _ a b ha hb
    · exact hlf 5 4 (by omega) _ _ a b ha hb
  · rw [if_neg hemp] at hmem
    obtain ⟨lb0, hlb0, rfl⟩ := List.mem_map.mp hmem
    obtain ⟨-, -, -, hes, hee, -, -⟩ := hvnRefine_fields
      (tr.volume.hvn.mergeSort fun a b => decide (b.2.2 ≤ a.2.2)) lb0
    rw [hes] at ha
    rw [hee] at hb
    simp only [List.mem_cons, List.not_mem_nil, or_false] at hlb0
    rcases hlb0 with rfl | rfl | rfl | rfl | rfl
    · exact hlf 1 0 (by omega) _ _ a b ha hb
    · exact hlf 2 1 (by omega) _ _ a b ha hb
    · exact hlf 3 2 (by omega) _ _ a b ha hb
    · exact hlf 4 3 (by omega) _ _ a b ha hb
    · exact hlf 5 4 (by omega) _ _ a b ha hb

/-- C2 counterexample: ten sorted candles (`ts = index`), an all-false
compression mask, and `base_end_idx = 9 ∈ [0, n-1]`, which exceeds
`int(0.55 * 10) = 5`. The inverted early zone `(9, 5)` takes the fallback
window and layer 2 gets `entry_start_ts = 7 > 5 = entry_end_ts`, refuting the
claim that `entry_start_ts ≤ entry_end_ts` holds for every possible
`base_end_idx`. -/
theorem c2_counterexample :
    candlesCE2.map (·.ts) = [0, 1, 2, 3, 4, 5, 6, 7, 8, 9] ∧
    tracesCE2.structureT.base_end_idx < candlesCE2.length ∧
    ((resolve_layers candlesCE2 tracesCE2).getD 1 default).entry_start_ts = some 7 ∧
    ((resolve_layers candlesCE2 tracesCE2).getD 1 default).entry_end_ts = some 5 ∧
    ¬ ((7 : Int) ≤ 5) := by
  have hstep : (resolve_layers candlesCE2 tracesCE2).getD 1 default
      = layerFor candlesCE2 tracesCE2.regime.compression_mask
          tracesCE2.accum_dist.distribution_flags tracesCE2.accum_dist.absorption_flags
          ((tracesCE2.verifier.map (·.confidence)).getD (6 / 10)) 2
          (zoneFor candlesCE2 tracesCE2 1) (4 / 100) := by
    have hm : tracesCE2.volume.hvn = ([] : List (ℚ × ℚ × ℚ)) := rfl
    simp only [resolve_layers, hm, List.mergeSort_nil, List.isEmpty_nil, if_true,
      List.getD_cons_succ, List.getD_cons_zero]
  have hpct : pct 10 55 100 = 5 :=
    pct_eval 10 55 100 11 2 5 (by norm_num) (by norm_num) (by decide)
  have hz : zoneFor candlesCE2 tracesCE2 1 = (9, 5) := by
    show (tracesCE2.structureT.base_end_idx, pct candlesCE2.length 55 100) = (9, 5)
    rw [show tracesCE2.structureT.base_end_idx = 9 from rfl,
      show candlesCE2.length = 10 from rfl, hpct]
  have hcomp : tracesCE2.regime.compression_mask = List.replicate 10 false := rfl
  have hres : find_longest_true_window (List.replicate 10 false) 9 5 = (none, none, 0) := by
    rcases fltw_char (List.replicate 10 false) 9 5 with ⟨hres, -⟩ |
      ⟨s, e, -, ⟨hwa, hwb, hwc, -⟩, -, -⟩
    · exact hres
    · omega
  have hres' : find_longest_true_window
      [false, false, false, false, false, false, false, false, false, false] 9 5
      = (none, none, 0) := hres
  have hfall1 : (entry_window candlesCE2 (List.replicate 10 false) (9, 5)).1
      = some (pyGet candlesCE2 (((9 : Nat) : Int)
          + pyTrunc ((((((5 : Nat) : Int) - ((9 : Nat) : Int)) : Int) : ℚ) * (6 / 10)))).ts := by
    simp [entry_window, hres']
  have hfall2 : (entry_window candlesCE2 (List.replicate 10 false) (9, 5)).2.1
      = some (pyGet candlesCE2 ((5 : Nat) : Int)).ts := by
    simp [entry_window, hres']
  have hss : ((9 : Nat) : Int)
      + pyTrunc (((((5 : Nat) : Int) - ((9 : Nat) : Int) : Int) : ℚ) * (6 / 10)) = 7 := by
    have h1 : ((((5 : Nat) : Int) - ((9 : Nat) : Int) : Int) : ℚ) * (6 / 10) = -12/5 := by
      push_cast
      norm_num
    rw [h1, pyTrunc_eval (-12/5) (-12) 5 (by norm_num) (by norm_num)]
    decide
  refine ⟨by decide, by decide, ?_, ?_, by decide⟩
  · rw [hstep]
    show (entry_window candlesCE2 tracesCE2.regime.compression_mask
      (zoneFor candlesCE2 tracesCE2 1)).1 = some 7
    rw [hz, hcomp, hfall1, hss]
    show some (pyGet candlesCE2 (7 : Int)).ts = some 7
    rw [pyGet_nonneg _ _ (by omega)]
    decide
  · rw [hstep]
    show (entry_window candlesCE2 tracesCE2.regime.compression_mask
      (zoneFor candlesCE2 tracesCE2 1)).2.1 = some 5
    rw [hz, hcomp, hfall2]
    show some (pyGet candlesCE2 ((5 : Nat) : Int)).ts = some 5
    rw [pyGet_nonneg _ _ (by omega)]
    decide

/-- C2 witness for the amended claim: with `base_end_idx = 3 ≤ 5` on the same
sorted candles, every layer satisfies the ordering; instantiated at layer 1. -/
theorem c2_witness :
    (1 ≤ candlesCE2.length) ∧
    (tracesW2.structureT.base_end_idx ≤ pct candlesCE2.length 55 100) ∧
    ∀ lb ∈ resolve_layers candlesCE2 tracesW2, ∀ a b,
      lb.entry_start_ts = some a → lb.entry_end_ts = some b → a ≤ b := by
  have hpct : pct 10 55 100 = 5 :=
    pct_eval 10 55 100 11 2 5 (by norm_num) (by norm_num) (by decide)
  have hsorted : ∀ i j : Nat, i ≤ j → j < candlesCE2.length →
      (candlesCE2.getD i default).ts ≤ (candlesCE2.getD j default).ts := by
    intro i j hij hj
    have hj10 : j < 10 := by simpa [candlesCE2] using hj
    interval_cases j <;> interval_cases i <;> decide
  refine ⟨by decide, ?_, c2_entry_order candlesCE2 tracesW2 (by decide) hsorted ?_⟩ <;>
  · show (3 : Nat) ≤ pct candlesCE2.length 55 100
    rw [show candlesCE2.length = 10 from rfl, hpct]
    omega

/-- C8: `analyze` is a pure function of its inputs, so two runs with equal
candle sequences and equal parameters produce field-for-field equal results
(the built-in stages draw on no state beyond their arguments: no randomness,
no clock). -/
theorem c8_determinism (symbol timeframe : String) (c1 c2 : List Candle)
    (p1 p2 : Params) (hc : c1 = c2) (hp : p1 = p2) :
    analyze symbol timeframe c1 p1 = analyze symbol timeframe c2 p2 := by
  subst hc
  subst hp
  rfl

/-- C8 witness: two runs on the 100 flat candles with default parameters
agree. -/
theorem c8_witness :
    flat100 = flat100 ∧ ({} : Params) = {} ∧
    analyze "BTC" "1h" flat100 {} = analyze "BTC" "1h" flat100 {} :=
  ⟨rfl, rfl, c8_determinism "BTC" "1h" flat100 flat100 {} {} rfl rfl⟩

/-- C3: fewer than 100 candles (the empty sequence included, since its length
is 0) makes `analyze` fail with exactly the InsufficientData message and no
result — the `Except.error` carries nothing but the message, so no partial
trace survives; with at least 100 candles the validation passes and a layer
map is produced. -/
theorem c3_insufficient_data (symbol timeframe : String) (candles : List Candle)
    (params : Params) :
    (candles.length < 100 →
      analyze symbol timeframe candles params
        = .error "Need at least ~100 candles for meaningful layer inference.") ∧
    (100 ≤ candles.length →
      ∃ lm, analyze symbol timeframe candles params = .ok lm) := by
  constructor
  · intro h
    unfold analyze
    rw [if_pos (Or.inr h)]
  · intro h
    have hne : ¬ (candles.isEmpty = true ∨ candles.length < 100) := by
      rintro (hb | hlt)
      · rw [List.isEmpty_iff] at hb
        rw [hb] at h
        simp at h
      · omega
    unfold analyze
    rw [if_neg hne]
    exact ⟨_, rfl⟩

/-- The candles of a zone segment are candles of the series. -/
lemma segment_subset (candles : List Candle) (i0 i1 : Nat) :
    ∀ x ∈ segment_by_indices candles i0 i1, x ∈ candles := by
  intro x hx
  simp only [segment_by_indices] at hx
  split at hx
  · cases hx
  · exact List.drop_subset _ _ (List.take_subset _ _ hx)

/-- `band_from_zone` is sound for any nonnegative widen factor on candles with
`low ≤ high`: empty zone gives the double-`none` sentinel, otherwise
`price_low ≤ price_high`. -/
lemma band_ok (candles : List Candle) (z : Nat × Nat) (widen : ℚ)
    (hw : 0 ≤ widen) (hwf : ∀ cd ∈ candles, cd.l ≤ cd.h) :
    ((band_from_zone candles z widen).1 = none ∧
      (band_from_zone candles z widen).2.1 = none) ∨
    (∃ x y, (band_from_zone candles z widen).1 = some x ∧
      (band_from_zone candles z widen).2.1 = some y ∧ x ≤ y) := by
  by_cases hemp : (segment_by_indices candles z.1 z.2).isEmpty = true
  · left
    constructor <;> simp only [band_from_zone, if_pos hemp]
  · right
    simp only [band_from_zone, if_neg hemp]
    refine ⟨_, _, rfl, rfl, ?_⟩
    obtain ⟨cd, hcd⟩ := List.exists_mem_of_ne_nil _
      (by simpa [List.isEmpty_iff] using hemp)
    have hlo : ((segment_by_indices candles z.1 z.2).map (·.l)).min?.getD 0 ≤ cd.l :=
      min?_getD_le _ _ (List.mem_map_of_mem _ hcd)
    have hhi : cd.h ≤ ((segment_by_indices candles z.1 z.2).map (·.h)).max?.getD 0 :=
      le_max?_getD _ _ (List.mem_map_of_mem _ hcd)
    have hlh : cd.l ≤ cd.h := hwf cd (segment_subset candles z.1 z.2 cd hcd)
    have hspan : 0 ≤ ((segment_by_indices candles z.1 z.2).map (·.h)).max?.getD 0
        - ((segment_by_indices candles z.1 z.2).map (·.l)).min?.getD 0 := by linarith
    split_ifs with hwp
    · nlinarith [mul_nonneg hspan hw]
    · linarith

/-- `layerFor` labels its band with `num`, keeps `price_low ≤ price_high` (or
the double-`none` sentinel) and a confidence in `[0, 1]`. -/
lemma layerFor_ok (candles : List Candle) (comp dist abs_flags : List Bool)
    (vconf : ℚ) (num : Nat) (z : Nat × Nat) (widen : ℚ) (hw : 0 ≤ widen)
    (hwf : ∀ cd ∈ candles, cd.l ≤ cd.h) :
    (layerFor candles comp dist abs_flags vconf num z widen).layer = num ∧
    (((layerFor candles comp dist abs_flags vconf num z widen).price_low = none ∧
      (layerFor candles comp dist abs_flags vconf num z widen).price_high = none) ∨
     (∃ x y, (layerFor candles comp dist abs_flags vconf num z widen).price_low = some x ∧
       (layerFor candles comp dist abs_flags vconf num z widen).price_high = some y ∧ x ≤ y)) ∧
    0 ≤ (layerFor candles comp dist abs_flags vconf num z widen).confidence ∧
    (layerFor candles comp dist abs_flags vconf num z widen).confidence ≤ 1 := by
  have hpl : (layerFor candles comp dist abs_flags vconf num z widen).price_low
      = (band_from_zone candles z widen).1 := rfl
  have hph : (layerFor candles comp dist abs_flags vconf num z widen).price_high
      = (band_from_zone candles z widen).2.1 := rfl
  have hcf : (layerFor candles comp dist abs_flags vconf num z widen).confidence
      = combine_conf (entry_window candles comp z).2.2.1
          (state_for_zone dist abs_flags z).2.1 vconf := rfl
  rw [hpl, hph, hcf]
  exact ⟨rfl, band_ok candles z widen hw hwf,
    (combine_conf_mem _ _ _).1, (combine_conf_mem _ _ _).2⟩

/-- `resolve_layers` is `baseLayers` mapped through a band-preserving
function (the identity, or the HVN refinement, which touches only cost basis
and evidence). -/
lemma resolve_layers_form (candles : List Candle) (tr : Traces) :
    ∃ f : LayerBand → LayerBand,
      (∀ lb, (f lb).layer = lb.layer ∧ (f lb).price_low = lb.price_low ∧
        (f lb).price_high = lb.price_high ∧ (f lb).confidence = lb.confidence) ∧
      resolve_layers candles tr = (baseLayers candles tr).map f := by
  by_cases h : (tr.volume.hvn.mergeSort fun a b => decide (b.2.2 ≤ a.2.2)).isEmpty = true
  · refine ⟨id, fun lb => ⟨rfl, rfl, rfl, rfl⟩, ?_⟩
    rw [List.map_id]
    simp only [resolve_layers, if_pos h]
    rfl
  · refine ⟨hvnRefine (tr.volume.hvn.mergeSort fun a b => decide (b.2.2 ≤ a.2.2)),
      fun lb => ?_, ?_⟩
    · obtain ⟨h1, h2, h3, -, -, h6, -⟩ := hvnRefine_fields
        (tr.volume.hvn.mergeSort fun a b => decide (b.2.2 ≤ a.2.2)) lb
      exact ⟨h1, h2, h3, h6⟩
    · simp only [resolve_layers, if_neg h]
      rfl

/-- The layer invariants over `resolve_layers` directly: well-formed candles
give five bands labeled 1..5 with ordered (or doubly-null) price edges and
clamped confidence. -/
lemma resolve_ok (candles : List Candle) (tr : Traces)
    (hwf : ∀ cd ∈ candles, cd.l ≤ cd.h) :
    (resolve_layers candles tr).map (·.layer) = [1, 2, 3, 4, 5] ∧
    ∀ lb ∈ resolve_layers candles tr,
      ((lb.price_low = none ∧ lb.price_high = none) ∨
        ∃ x y, lb.price_low = some x ∧ lb.price_high = some y ∧ x ≤ y) ∧
      0 ≤ lb.confidence ∧ lb.confidence ≤ 1 := by
  obtain ⟨f, hf, heq⟩ := resolve_layers_form candles tr
  rw [heq]
  constructor
  · rw [List.map_map]
    simp only [baseLayers, List.map_cons, List.map_nil, Function.comp]
    simp only [hf]
    rfl
  · intro lb hlb
    obtain ⟨lb0, hlb0, rfl⟩ := List.mem_map.mp hlb
    rw [(hf lb0).2.1, (hf lb0).2.2.1, (hf lb0).2.2.2]
    simp only [baseLayers, List.mem_cons, List.not_mem_nil, or_false] at hlb0
    rcases hlb0 with rfl | rfl | rfl | rfl | rfl
    · obtain ⟨-, hb, hc1, hc2⟩ := layerFor_ok candles _ _ _ _ 1 _ (5 / 100) (by norm_num) hwf
      exact ⟨hb, hc1, hc2⟩
    · obtain ⟨-, hb, hc1, hc2⟩ := layerFor_ok candles _ _ _ _ 2 _ (4 / 100) (by norm_num) hwf
      exact ⟨hb, hc1, hc2⟩
    · obtain ⟨-, hb, hc1, hc2⟩ := layerFor_ok candles _ _ _ _ 3 _ (3 / 100) (by norm_num) hwf
      exact ⟨hb, hc1, hc2⟩
    · obtain ⟨-, hb, hc1, hc2⟩ := layerFor_ok candles _ _ _ _ 4 _ (2 / 100) (by norm_num) hwf
      exact ⟨hb, hc1, hc2⟩
    · obtain ⟨-, hb, hc1, hc2⟩ := layerFor_ok candles _ _ _ _ 5 _ (1 / 100) (by norm_num) hwf
      exact ⟨hb, hc1, hc2⟩

/-- C1: on every successful run (at least 100 OHLCV candles, each with
`low ≤ high`), the layer map holds exactly five bands numbered 1..5 in
ascending order; every band has `price_low ≤ price_high` or the double-`none`
empty-zone sentinel, and its confidence lies in `[0, 1]`. -/
theorem c1_layer_invariants (symbol timeframe : String) (candles : List Candle)
    (params : Params) (hn : 100 ≤ candles.length)
    (hwf : ∀ cd ∈ candles, cd.l ≤ cd.h) :
    ∃ lm, analyze symbol timeframe candles params = .ok lm ∧
      lm.layers.map (·.layer) = [1, 2, 3, 4, 5] ∧
      ∀ lb ∈ lm.layers,
        ((lb.price_low = none ∧ lb.price_high = none) ∨
          ∃ x y, lb.price_low = some x ∧ lb.price_high = some y ∧ x ≤ y) ∧
        0 ≤ lb.confidence ∧ lb.confidence ≤ 1 := by
  have hne : ¬ (candles.isEmpty = true ∨ candles.length < 100) := by
    rintro (hb | hlt)
    · rw [List.isEmpty_iff] at hb
      rw [hb] at hn
      simp at hn
    · omega
  unfold analyze
  rw [if_neg hne]
  exact ⟨_, rfl, (resolve_ok candles _ hwf).1, (resolve_ok candles _ hwf).2⟩

/-- C1 witness: the 100-candle flat series is long enough and well-formed, so
the invariants hold on its successful run. -/
theorem c1_witness :
    (100 ≤ flat100.length) ∧ (∀ cd ∈ flat100, cd.l ≤ cd.h) ∧
    ∃ lm, analyze "BTC" "1h" flat100 {} = .ok lm ∧
      lm.layers.map (·.layer) = [1, 2, 3, 4, 5] ∧
      ∀ lb ∈ lm.layers,
        ((lb.price_low = none ∧ lb.price_high = none) ∨
          ∃ x y, lb.price_low = some x ∧ lb.price_high = some y ∧ x ≤ y) ∧
        0 ≤ lb.confidence ∧ lb.confidence ≤ 1 := by
  have h1 : 100 ≤ flat100.length := by
    rw [flat100, List.length_map, List.length_range]
  have h2 : ∀ cd ∈ flat100, cd.l ≤ cd.h := by
    intro cd hcd
    simp only [flat100, List.mem_map] at hcd
    obtain ⟨i, -, rfl⟩ := hcd
    norm_num
  exact ⟨h1, h2, c1_layer_invariants "BTC" "1h" flat100 {} h1 h2⟩

/-- C6 (amended): the refinement step sorts the HVN buckets by volume
descending and takes the first one overlapping the layer's band. With no
overlapping bucket the layer is returned entirely unchanged. With one, the
chosen bucket has maximal volume among the overlapping buckets, an evidence
note with its midpoint is appended, and the cost basis becomes
`0.7 * previous + 0.3 * midpoint` — but only when the previous cost basis is
non-null; a null cost basis stays null (the claim's unconditional blend fails
there). -/
theorem c6_hvn_refinement (hvn : List (ℚ × ℚ × ℚ)) (lb : LayerBand) :
    ((∀ nd ∈ hvn, hvnOverlap lb nd = false) →
      hvnRefine (hvn.mergeSort fun a b => decide (b.2.2 ≤ a.2.2)) lb = lb) ∧
    ((∃ nd ∈ hvn, hvnOverlap lb nd = true) →
      ∃ nd ∈ hvn, ∃ c : ℚ, c = (nd.1 + nd.2.1) / 2 ∧ hvnOverlap lb nd = true ∧
        (∀ nd2 ∈ hvn, hvnOverlap lb nd2 = true → nd2.2.2 ≤ nd.2.2) ∧
        (hvnRefine (hvn.mergeSort fun a b => decide (b.2.2 ≤ a.2.2)) lb).evidence
          = lb.evidence ++ [s!"hvn_hint centroid={c}"] ∧
        (lb.cost_basis = none →
          (hvnRefine (hvn.mergeSort fun a b => decide (b.2.2 ≤ a.2.2)) lb).cost_basis
            = none) ∧
        (∀ cbv, lb.cost_basis = some cbv →
          (hvnRefine (hvn.mergeSort fun a b => decide (b.2.2 ≤ a.2.2)) lb).cost_basis
            = some (cbv * (7 / 10) + c * (3 / 10)))) := by
  have hperm : (hvn.mergeSort fun a b => decide (b.2.2 ≤ a.2.2)).Perm hvn :=
    List.mergeSort_perm hvn _
  have hsorted : List.Pairwise (fun a b => (decide (b.2.2 ≤ a.2.2)) = true)
      (hvn.mergeSort fun a b => decide (b.2.2 ≤ a.2.2)) :=
    List.sorted_mergeSort
      (fun a b c hab hbc => by
        simp only [decide_eq_true_eq] at *
        exact le_trans hbc hab)
      (fun a b => by
        simp only [Bool.or_eq_true, decide_eq_true_eq]
        exact le_total b.2.2 a.2.2)
      hvn
  constructor
  · intro hno
    have hfil : (hvn.mergeSort fun a b => decide (b.2.2 ≤ a.2.2)).filter
        (hvnOverlap lb) = [] := by
      rw [List.filter_eq_nil_iff]
      intro a ha
      rw [hno a (hperm.mem_iff.mp ha)]
      simp
    unfold hvnRefine
    rw [hfil]
  · rintro ⟨nd0, hnd0, hov0⟩
    have hmem0 : nd0 ∈ (hvn.mergeSort fun a b => decide (b.2.2 ≤ a.2.2)).filter
        (hvnOverlap lb) := List.mem_filter.mpr ⟨hperm.mem_iff.mpr hnd0, hov0⟩
    cases hfil : (hvn.mergeSort fun a b => decide (b.2.2 ≤ a.2.2)).filter
        (hvnOverlap lb) with
    | nil =>
      rw [hfil] at hmem0
      cases hmem0
    | cons nd tl =>
      have hndf : nd ∈ (hvn.mergeSort fun a b => decide (b.2.2 ≤ a.2.2)).filter
          (hvnOverlap lb) := by
        rw [hfil]
        exact List.mem_cons_self nd tl
      obtain ⟨hndS, hndov⟩ := List.mem_filter.mp hndf
      have hmax : ∀ nd2 ∈ hvn, hvnOverlap lb nd2 = true → nd2.2.2 ≤ nd.2.2 := by
        intro nd2 hnd2 hov2
        have h2f : nd2 ∈ (hvn.mergeSort fun a b => decide (b.2.2 ≤ a.2.2)).filter
            (hvnOverlap lb) := List.mem_filter.mpr ⟨hperm.mem_iff.mpr hnd2, hov2⟩
        rw [hfil] at h2f
        rcases List.mem_cons.mp h2f with heq | h2tl
        · rw [heq]
        · have hpf : List.Pairwise (fun a b => (decide (b.2.2 ≤ a.2.2)) = true)
              (nd :: tl) := by
            rw [← hfil]
            exact hsorted.filter _
          have := List.rel_of_pairwise_cons hpf h2tl
          simpa using this
      refine ⟨nd, hperm.mem_iff.mp hndS, (nd.1 + nd.2.1) / 2, rfl, hndov, hmax, ?_, ?_, ?_⟩
      · simp only [hvnRefine, hfil]
      · intro h
        simp only [hvnRefine, hfil, h]
      · intro cbv h
        simp only [hvnRefine, hfil, h]

/-- C6 counterexample: on the ten zero-volume candles, the single HVN bucket
`(0, 1000, 5)` overlaps layer 1's price band, yet the refined layer's cost
basis is `None` rather than any `0.7 * previous + 0.3 * midpoint` blend — the
layer entered refinement with a null cost basis, which the claim's
unconditional update does not account for. -/
theorem c6_counterexample :
    (∃ nd ∈ tracesCE6.volume.hvn,
      hvnOverlap ((resolve_layers candlesCE6 tracesCE6).getD 0 default) nd = true) ∧
    ((resolve_layers candlesCE6 tracesCE6).getD 0 default).cost_basis = none := by
  have hcb : ((resolve_layers candlesCE6 tracesCE6).getD 0 default).cost_basis = none :=
    resolve_cost_none candlesCE6 tracesCE6 0 (by norm_num) (by decide)
      (by simp [candlesCE6, tracesCE6, tracesCE2, zoneFor, segment_by_indices])
  have hseg : segment_by_indices candlesCE6 (zoneFor candlesCE6 tracesCE6 0).1
      (zoneFor candlesCE6 tracesCE6 0).2
      = [⟨0, 1, 2, 1, 1, 0⟩, ⟨1, 1, 2, 1, 1, 0⟩, ⟨2, 1, 2, 1, 1, 0⟩] := by
    show segment_by_indices candlesCE6 0 2 = _
    simp [segment_by_indices, candlesCE6]
  have hband1 : (band_from_zone candlesCE6 (zoneFor candlesCE6 tracesCE6 0) (5 / 100)).1
      = some (19 / 20) := by
    norm_num [band_from_zone, hseg, List.min?, List.max?]
  have hband2 : (band_from_zone candlesCE6 (zoneFor candlesCE6 tracesCE6 0) (5 / 100)).2.1
      = some (41 / 20) := by
    norm_num [band_from_zone, hseg, List.min?, List.max?]
  obtain ⟨f, hf, heq⟩ := resolve_layers_form candlesCE6 tracesCE6
  have hstep : (resolve_layers candlesCE6 tracesCE6).getD 0 default
      = f (layerFor candlesCE6 tracesCE6.regime.compression_mask
          tracesCE6.accum_dist.distribution_flags tracesCE6.accum_dist.absorption_flags
          ((tracesCE6.verifier.map (·.confidence)).getD (6 / 10)) 1
          (zoneFor candlesCE6 tracesCE6 0) (5 / 100)) := by
    rw [heq]
    rfl
  have hlow : ((resolve_layers candlesCE6 tracesCE6).getD 0 default).price_low
      = some (19 / 20) := by
    rw [hstep, (hf _).2.1]
    exact hband1
  have hhigh : ((resolve_layers candlesCE6 tracesCE6).getD 0 default).price_high
      = some (41 / 20) := by
    rw [hstep, (hf _).2.2.1]
    exact hband2
  refine ⟨⟨(0, 1000, 5), List.mem_singleton.mpr rfl, ?_⟩, hcb⟩
  show hvnOverlap ((resolve_layers candlesCE6 tracesCE6).getD 0 default) (0, 1000, 5) = true
  unfold hvnOverlap
  rw [hlow, hhigh]
  norm_num [qlt]

end SMC
